import Mathlib

/-!
qued: a Redis-backed message queue with bounded retry and dead-lettering

A shallow embedding of `go-sdk/queue.go` (package `qued`) and of the consumer
loop of `examples/go/go-consumer.go`.

* The Redis server is a pure state: a map from list key to the list stored
  there.  `LPush` adds at the head of a list, `BRPop` removes from its tail.
  Every store call takes the connection failure, if any, that the call meets.
* A Go string is a byte string: it is given as the sequence `range` walks over,
  Unicode characters and bytes that are not valid UTF-8.  `json.Marshal` writes
  U+FFFD for each such byte; text on the wire is always valid.
* Byte strings on the wire are either the text of a JSON value or bytes that
  are not JSON at all.  `marshal` and `unmarshal` follow `encoding/json` on the
  struct tags of `Message`; a payload decoded into the `any` field is the
  generic Go value: numbers become float64, objects become maps, which are
  written back with sorted keys.
* Numbers are integer literals; literals with a fraction are outside the
  model.  Of a number in a payload only the value is modelled: a float64 is
  written back as its exact value, a literal that reads back as that float64.
* Go's `int` is the 64-bit two's complement integer: `Attempts` is an `Int`
  and `msg.Attempts++` wraps.
* `*Message` arguments are mutated in place by `Fail` and `Retry`; the
  embedding returns the message as the caller sees it after the call.
* `uuid.New()` and `time.Now()` are inputs of `Enqueue`.  The context and the
  length of the blocking wait are not modelled: `BRPop` on an empty list gives
  the reply of the store once the wait is over (`redis.Nil`).
-/

namespace Qued

/-! ## Go strings -/

/-- One step of `range` over a Go string: a Unicode character, or one byte
that is not part of a valid UTF-8 sequence. -/
inductive Rune where
  | char (c : Char)
  | invalid (byte : Nat)
  deriving DecidableEq

/-- A Go string. -/
abbrev GoString := List Rune

/-- The Go string holding a text. -/
def GoString.ofText (s : String) : GoString := s.data.map Rune.char

/-- The text `json.Marshal` writes for a Go string: each invalid byte becomes
U+FFFD. -/
def GoString.toValidUTF8 (s : GoString) : String :=
  String.mk (s.map (fun u =>
    match u with
    | Rune.char c => c
    | Rune.invalid _ => Char.ofNat 0xFFFD))

/-! ## Values on the wire -/

/-- A JSON value.  `num` is an integer literal. -/
inductive JSON where
  | null
  | bool (b : Bool)
  | num (n : Int)
  | str (s : String)
  | arr (xs : List JSON)
  | obj (kvs : List (String × JSON))

/-- A Go value of type `any` held in `Message.Payload`: either a value that
`encoding/json` can encode, given as the JSON value it is written as, or a
value it rejects (a channel, a function, ...). -/
inductive Any where
  | value (v : JSON)
  | unsupported (kind : String)

/-- The bytes stored in a Redis list element. -/
inductive Bytes where
  | text (v : JSON)
  | garbled (raw : String)

/-- The errors the SDK can return. -/
inductive Error where
  | redisNil
  | store (msg : String)
  | json (msg : String)

/-! ## Machine numbers -/

/-- Smallest value of Go's `int`. -/
def minInt : Int := -9223372036854775808

/-- Largest value of Go's `int`. -/
def maxInt : Int := 9223372036854775807

/-- Reduction of an integer to the range of Go's `int`. -/
def wrapInt (n : Int) : Int := (n + 9223372036854775808) % 18446744073709551616 - 9223372036854775808

/-- The number of low bits a natural number has beyond 53 significant bits. -/
def dropBits : Nat → Nat → Nat
  | 0, _ => 0
  | fuel + 1, a => if a < 2 ^ 53 then 0 else dropBits fuel (a / 2) + 1

/-- The bound of float64: 2 to the power 1024. -/
def floatBound : Nat := 2 ^ 256 * 2 ^ 256 * 2 ^ 256 * 2 ^ 256

/-- A natural number below `floatBound` rounded to 53 significant bits, ties
to even: the magnitude of the nearest float64. -/
def round53 (a : Nat) : Nat :=
  let e := dropBits 1024 a
  let q := a / 2 ^ e
  let rest := a % 2 ^ e
  if 2 ^ e < 2 * rest ∨ (2 * rest = 2 ^ e ∧ q % 2 = 1) then (q + 1) * 2 ^ e else q * 2 ^ e

/-- The float64 a number literal is parsed to (`strconv.ParseFloat`), as its
exact value; `none` when the literal is out of the range of float64. -/
def toFloat64 (n : Int) : Option Int :=
  if n.natAbs < floatBound ∧ round53 n.natAbs < floatBound then
    some (if n < 0 then -(round53 n.natAbs : Int) else (round53 n.natAbs : Int))
  else none

/-! ## The data model -/

/-- Message is the structure for queued items (`Typ` is the Go field `Type`). -/
structure Message where
  ID : GoString
  Typ : GoString
  Payload : Any
  CreatedAt : GoString
  Attempts : Int

/-- The zero value of `Message` (`var msg Message`). -/
def Message.zero : Message :=
  { ID := [], Typ := [], Payload := Any.value JSON.null, CreatedAt := [], Attempts := 0 }

/-- Queue wraps the queue name, its dead-letter name and the retry ceiling. -/
structure Queue where
  name : String
  deadName : String
  maxTries : Int

/-- NewQueue creates a new Queue instance; the dead-letter key is `name:dead`.
The Redis client, and the panic on a URL that does not parse, are outside the
model: the store is passed to every operation. -/
def NewQueue (name : String) (maxTries : Int) : Queue :=
  { name := name, deadName := name ++ ":dead", maxTries := maxTries }

/-! ## encoding/json on `Message` -/

/-- The encoding of a message: `id`, `type` (omitted when empty), `payload`,
`created_at`, `attempts` (omitted when zero), in the order of the fields;
strings are written as valid UTF-8. -/
def marshal (msg : Message) : Except Error Bytes :=
  match msg.Payload with
  | Any.unsupported kind => Except.error (Error.json ("unsupported type: " ++ kind))
  | Any.value p =>
    Except.ok (Bytes.text (JSON.obj (
      [("id", JSON.str msg.ID.toValidUTF8)]
      ++ (if msg.Typ = [] then [] else [("type", JSON.str msg.Typ.toValidUTF8)])
      ++ [("payload", p), ("created_at", JSON.str msg.CreatedAt.toValidUTF8)]
      ++ (if msg.Attempts = 0 then [] else [("attempts", JSON.num msg.Attempts)]))))

/-- Case folding of one character of an object key: ASCII letters to lower
case, and the two letters outside ASCII that fold to `s` and `k`. -/
def foldChar (c : Char) : Char :=
  if c = Char.ofNat 0x17F then 's'
  else if c = Char.ofNat 0x212A then 'k'
  else c.toLower

/-- Case folding of an object key. -/
def foldName (key : String) : String := String.mk (key.data.map foldChar)

/-- A member put into a Go map kept in the order `json.Marshal` writes it,
sorted by key; a key already present keeps its value. -/
def insertMember (k : String) (v : JSON) : List (String × JSON) → List (String × JSON)
  | [] => [(k, v)]
  | (k1, v1) :: rest =>
    if k.data < k1.data then (k, v) :: (k1, v1) :: rest
    else if k = k1 then (k1, v1) :: rest
    else (k1, v1) :: insertMember k v rest

mutual
/-- Decoding of a JSON value into a Go `any`: the generic value, given as
the JSON value it is written back as.  Numbers become float64, arrays slices,
objects maps (of a key that occurs twice the last member stays). -/
def decodeAny : JSON → Except Error JSON
  | JSON.null => Except.ok JSON.null
  | JSON.bool b => Except.ok (JSON.bool b)
  | JSON.num n =>
    match toFloat64 n with
    | some x => Except.ok (JSON.num x)
    | none => Except.error (Error.json "cannot unmarshal number into Go value of type float64")
  | JSON.str s => Except.ok (JSON.str s)
  | JSON.arr xs =>
    match decodeArray xs with
    | Except.ok ys => Except.ok (JSON.arr ys)
    | Except.error e => Except.error e
  | JSON.obj kvs =>
    match decodeObject kvs with
    | Except.ok m => Except.ok (JSON.obj m)
    | Except.error e => Except.error e
/-- Decoding of the elements of an array. -/
def decodeArray : List JSON → Except Error (List JSON)
  | [] => Except.ok []
  | x :: xs =>
    match decodeAny x with
    | Except.error e => Except.error e
    | Except.ok y =>
      match decodeArray xs with
      | Except.error e => Except.error e
      | Except.ok ys => Except.ok (y :: ys)
/-- Decoding of the members of an object into a map. -/
def decodeObject : List (String × JSON) → Except Error (List (String × JSON))
  | [] => Except.ok []
  | (k, v) :: rest =>
    match decodeAny v with
    | Except.error e => Except.error e
    | Except.ok y =>
      match decodeObject rest with
      | Except.error e => Except.error e
      | Except.ok m => Except.ok (insertMember k y m)
end

/-- Decoding of a JSON value into a Go `string` field. -/
def decodeString (field : String) (old : GoString) (v : JSON) : Except Error GoString :=
  match v with
  | JSON.str s => Except.ok (GoString.ofText s)
  | JSON.null => Except.ok old
  | _ => Except.error (Error.json ("cannot unmarshal into field " ++ field ++ " of type string"))

/-- Decoding of a JSON value into a Go `int` field. -/
def decodeInt (field : String) (old : Int) (v : JSON) : Except Error Int :=
  match v with
  | JSON.num n =>
    if minInt ≤ n ∧ n ≤ maxInt then Except.ok n
    else Except.error (Error.json ("cannot unmarshal number into field " ++ field ++ " of type int"))
  | JSON.null => Except.ok old
  | _ => Except.error (Error.json ("cannot unmarshal into field " ++ field ++ " of type int"))

/-- One `key: value` member of an object decoded into the message: the key
selects the field by its JSON name, case-insensitively; unknown keys are
skipped. -/
def setField (msg : Message) (key : String) (v : JSON) : Except Error Message :=
  let k := foldName key
  if k = "id" then
    (decodeString "id" msg.ID v).map (fun s => { msg with ID := s })
  else if k = "type" then
    (decodeString "type" msg.Typ v).map (fun s => { msg with Typ := s })
  else if k = "payload" then
    (decodeAny v).map (fun p => { msg with Payload := Any.value p })
  else if k = "created_at" then
    (decodeString "created_at" msg.CreatedAt v).map (fun s => { msg with CreatedAt := s })
  else if k = "attempts" then
    (decodeInt "attempts" msg.Attempts v).map (fun n => { msg with Attempts := n })
  else Except.ok msg

/-- The members of an object decoded in order; a later member overrides an
earlier one for the same field. -/
def decodeFields : List (String × JSON) → Message → Except Error Message
  | [], msg => Except.ok msg
  | (k, v) :: rest, msg =>
    match setField msg k v with
    | Except.ok m => decodeFields rest m
    | Except.error e => Except.error e

/-- The decoding `json.Unmarshal(data, &msg)` into a message. -/
def unmarshal (data : Bytes) (msg : Message) : Except Error Message :=
  match data with
  | Bytes.garbled _ => Except.error (Error.json "invalid character")
  | Bytes.text JSON.null => Except.ok msg
  | Bytes.text (JSON.obj kvs) => decodeFields kvs msg
  | Bytes.text _ => Except.error (Error.json "cannot unmarshal into Go value of type qued.Message")

/-! ## The Redis list store -/

/-- The store: the list held at each key (a missing key is the empty list). -/
abbrev Redis := String → List Bytes

/-- The command `LPUSH key data`: on a connection failure nothing is stored. -/
def LPush (fault : Option String) (key : String) (data : Bytes) (r : Redis) :
    Option Error × Redis :=
  match fault with
  | some e => (some (Error.store e), r)
  | none => (none, fun k => if k = key then data :: r k else r k)

/-- The command `BRPOP key timeout`: removes and returns the last element of
the list; on an empty list the reply is `redis.Nil`. -/
def BRPop (fault : Option String) (key : String) (r : Redis) :
    Except Error Bytes × Redis :=
  match fault with
  | some e => (Except.error (Error.store e), r)
  | none =>
    match (r key).getLast? with
    | none => (Except.error Error.redisNil, r)
    | some data => (Except.ok data, fun k => if k = key then (r key).dropLast else r k)

/-! ## The queue operations -/

/-- Enqueue adds a message to the queue.  `uuid` is the text of `uuid.New()`
and `now` the formatted `time.Now()`. -/
def Enqueue (q : Queue) (fault : Option String) (uuid now : String) (msgType : GoString)
    (payload : Any) (r : Redis) : (GoString × Option Error) × Redis :=
  let msg : Message :=
    { ID := GoString.ofText uuid, Typ := msgType, Payload := payload,
      CreatedAt := GoString.ofText now, Attempts := 0 }
  match marshal msg with
  | Except.error err => (([], some err), r)
  | Except.ok data =>
    match LPush fault q.name data r with
    | (some err, r1) => (([], some err), r1)
    | (none, r1) => ((msg.ID, none), r1)

/-- Dequeue retrieves a message from the queue (blocking). -/
def Dequeue (q : Queue) (fault : Option String) (r : Redis) :
    (Option Message × Option Error) × Redis :=
  match BRPop fault q.name r with
  | (Except.error err, r1) =>
    match err with
    | Error.redisNil => ((none, none), r1)
    | _ => ((none, some err), r1)
  | (Except.ok data, r1) =>
    match unmarshal data Message.zero with
    | Except.error err => ((none, some err), r1)
    | Except.ok msg => ((some msg, none), r1)

/-- Fail moves a message to the dead-letter queue.  The first component is the
caller's message after the call. -/
def Fail (q : Queue) (fault : Option String) (msg : Message) (r : Redis) :
    (Message × Option Error) × Redis :=
  let msg1 : Message := { msg with Attempts := wrapInt (msg.Attempts + 1) }
  match marshal msg1 with
  | Except.error err => ((msg1, some err), r)
  | Except.ok data =>
    match LPush fault q.deadName data r with
    | (err, r1) => ((msg1, err), r1)

/-- Retry re-enqueues a message, or moves to dead-letter if maxTries exceeded.
The first component is the caller's message after the call. -/
def Retry (q : Queue) (fault : Option String) (msg : Message) (r : Redis) :
    (Message × Option Error) × Redis :=
  let msg1 : Message := { msg with Attempts := wrapInt (msg.Attempts + 1) }
  if msg1.Attempts ≥ q.maxTries then Fail q fault msg1 r
  else
    match marshal msg1 with
    | Except.error err => ((msg1, some err), r)
    | Except.ok data =>
      match LPush fault q.name data r with
      | (err, r1) => ((msg1, err), r1)

/-- DeadLetter retrieves a message from the dead-letter queue (blocking). -/
def DeadLetter (q : Queue) (fault : Option String) (r : Redis) :
    (Option Message × Option Error) × Redis :=
  match BRPop fault q.deadName r with
  | (Except.error err, r1) =>
    match err with
    | Error.redisNil => ((none, none), r1)
    | _ => ((none, some err), r1)
  | (Except.ok data, r1) =>
    match unmarshal data Message.zero with
    | Except.error err => ((none, some err), r1)
    | Except.ok msg => ((some msg, none), r1)

/-! ## Generic values -/

/-- The key `k` sorts before the first key of the list, if any. -/
def keyBelow (k : String) : List (String × JSON) → Prop
  | [] => True
  | (k1, _) :: _ => k.data < k1.data

mutual
/-- The JSON value is one that a generic Go value is written as: numbers are
float64 values, the members of an object are sorted by key with no key twice. -/
def generic : JSON → Prop
  | JSON.null => True
  | JSON.bool _ => True
  | JSON.num n => toFloat64 n = some n
  | JSON.str _ => True
  | JSON.arr xs => genericArray xs
  | JSON.obj kvs => genericObject kvs
/-- All elements are generic. -/
def genericArray : List JSON → Prop
  | [] => True
  | x :: xs => generic x ∧ genericArray xs
/-- All members are generic and the keys increase. -/
def genericObject : List (String × JSON) → Prop
  | [] => True
  | (k, v) :: rest => generic v ∧ keyBelow k rest ∧ genericObject rest
end

/-! ## The consumer loop, and the notions the properties are stated with -/

/-- What a consumer does with a message it received. -/
inductive Handler where
  | retry
  | fail

/-- One turn of the consumer loop of `examples/go/go-consumer.go`: Dequeue,
`continue` on an error or on no message, otherwise hand the message to Retry
(or, for a consumer that gives up at once, to Fail). -/
def consumerStep (q : Queue) (h : Handler) (popFault pushFault : Option String)
    (r : Redis) : Redis :=
  match Dequeue q popFault r with
  | ((_, some _), r1) => r1
  | ((none, none), r1) => r1
  | ((some msg, none), r1) =>
    match h with
    | Handler.retry => (Retry q pushFault msg r1).2
    | Handler.fail => (Fail q pushFault msg r1).2

/-- One Dequeue-then-Retry round with a reachable store. -/
def consumerRound (q : Queue) (r : Redis) : Redis :=
  consumerStep q Handler.retry none none r

/-- The bytes `json.Marshal` gives for a message (empty bytes when it fails). -/
def wireOf (msg : Message) : Bytes :=
  match marshal msg with
  | Except.ok data => data
  | Except.error _ => Bytes.garbled ""

/-- The message ids of the records of a list that decode to a message. -/
def ids (l : List Bytes) : List GoString :=
  l.filterMap (fun data =>
    match unmarshal data Message.zero with
    | Except.ok msg => some msg.ID
    | Except.error _ => none)

/-- The message a caller holds after the increment `msg.Attempts++`. -/
def bump (m : Message) : Message := { m with Attempts := wrapInt (m.Attempts + 1) }

/-- The Go string has no invalid byte. -/
def isText (s : GoString) : Prop := GoString.ofText s.toValidUTF8 = s

/-- A message as Dequeue and DeadLetter return it: the strings are valid
UTF-8, the payload is a generic value and attempts is an int. -/
def settled (m : Message) : Prop :=
  isText m.ID ∧ isText m.Typ ∧ isText m.CreatedAt
  ∧ (∃ v, m.Payload = Any.value v ∧ generic v)
  ∧ minInt ≤ m.Attempts ∧ m.Attempts ≤ maxInt

/-- The message a consumer receives for the record of `m` when the payload of
`m` is written as a JSON value that decodes to `p`. -/
def received (m : Message) (p : JSON) : Message :=
  { ID := GoString.ofText m.ID.toValidUTF8, Typ := GoString.ofText m.Typ.toValidUTF8,
    Payload := Any.value p, CreatedAt := GoString.ofText m.CreatedAt.toValidUTF8,
    Attempts := m.Attempts }

/-- The message Enqueue builds. -/
def enqueued (uuid now : String) (msgType : GoString) (p : JSON) : Message :=
  { ID := GoString.ofText uuid, Typ := msgType, Payload := Any.value p,
    CreatedAt := GoString.ofText now, Attempts := 0 }

/-- A message as the producer of the examples enqueues it. -/
def demoMsg : Message :=
  { ID := GoString.ofText "X", Typ := GoString.ofText "order.created",
    Payload := Any.value (JSON.obj [("id", JSON.num 42)]),
    CreatedAt := GoString.ofText "2024-01-01T00:00:00Z", Attempts := 0 }

/-- A store with nothing in it. -/
def emptyStore : Redis := fun _ => []

/-- A store whose list `orders:dead` holds the record of `demoMsg` and nothing
else. -/
def deadOnlyStore : Redis := fun k => if k = "orders:dead" then [wireOf demoMsg] else []

/-- A store whose list `orders` holds the record of `demoMsg` and nothing else. -/
def demoStore : Redis := fun k => if k = "orders" then [wireOf demoMsg] else []

/-- A call of Enqueue: the id and the time the call draws, and its arguments. -/
structure Request where
  uuid : String
  now : String
  msgType : GoString
  payload : JSON

/-- The message Enqueue builds for a request. -/
def Request.message (x : Request) : Message :=
  enqueued x.uuid x.now x.msgType x.payload

/-- The requests enqueued one after the other, first to last. -/
def enqueueAll (q : Queue) : List Request → Redis → Redis
  | [], r => r
  | x :: xs, r =>
    enqueueAll q xs (Enqueue q none x.uuid x.now x.msgType (Any.value x.payload) r).2

/-- The results of `n` successive Dequeue calls. -/
def dequeueN (q : Queue) : Nat → Redis → List (Option Message × Option Error)
  | 0, _ => []
  | n + 1, r => (Dequeue q none r).1 :: dequeueN q n (Dequeue q none r).2

/-- What Dequeue returns when it pops the record `data`. -/
def delivery (data : Bytes) : Option Message × Option Error :=
  match unmarshal data Message.zero with
  | Except.error err => (none, some err)
  | Except.ok msg => (some msg, none)

/-- A store whose live list `orders` ends, at the pop end, in bytes that are
not JSON, behind one good record. -/
def poisonStore : Redis :=
  fun k => if k = "orders" then [wireOf demoMsg, Bytes.garbled "not json"] else []

/-- One step of a consumer: what it does with the message and the failures
the two store calls meet. -/
structure Step where
  handler : Handler
  popFault : Option String
  pushFault : Option String

/-- A sequence of consumer steps, first to last. -/
def runSteps (q : Queue) : List Step → Redis → Redis
  | [], r => r
  | s :: ss, r => runSteps q ss (consumerStep q s.handler s.popFault s.pushFault r)

/-- Each message id occurs at most once across the live and dead-letter lists. -/
def idsDistinct (q : Queue) (r : Redis) : Prop :=
  (ids (r q.name) ++ ids (r q.deadName)).Nodup

/-- Two messages agree on everything but attempts. -/
def sameIdentity (a b : Message) : Prop :=
  a.ID = b.ID ∧ a.Typ = b.Typ ∧ a.Payload = b.Payload ∧ a.CreatedAt = b.CreatedAt

/-- The list is as before, or has one more record, at its head: the encoding
of the message `m`. -/
def pushedFor (m : Message) (before after : List Bytes) : Prop :=
  after = before ∨ (after = wireOf m :: before ∧ marshal m = Except.ok (wireOf m))

/-! ## Properties -/

/-! ### float64 -/

theorem floatBound_eq : floatBound = 2 ^ (53 + 971) := by
  unfold floatBound
  rw [← pow_add, ← pow_add, ← pow_add]

theorem dropBits_spec (fuel a : Nat) (h : a < 2 ^ (53 + fuel)) :
    (a < 2 ^ 53 ∧ dropBits fuel a = 0)
    ∨ (1 ≤ dropBits fuel a ∧ 2 ^ (52 + dropBits fuel a) ≤ a ∧ a < 2 ^ (53 + dropBits fuel a)) := by
  induction fuel generalizing a with
  | zero => exact Or.inl ⟨by simpa using h, rfl⟩
  | succ fuel ih =>
    unfold dropBits
    by_cases hlt : a < 2 ^ 53
    · exact Or.inl ⟨hlt, by rw [if_pos hlt]⟩
    · right
      simp only [hlt, if_false]
      have hhalf : a / 2 < 2 ^ (53 + fuel) := by
        have : 2 ^ (53 + (fuel + 1)) = 2 * 2 ^ (53 + fuel) := by
          rw [← Nat.add_assoc, pow_succ]; ring
        omega
      rcases ih (a / 2) hhalf with ⟨h1, h2⟩ | ⟨h1, h2, h3⟩
      · rw [h2]
        refine ⟨by omega, ?_, ?_⟩
        · have : (2 : Nat) ^ (52 + (0 + 1)) = 2 ^ 53 := by norm_num
          omega
        · have : (2 : Nat) ^ (53 + (0 + 1)) = 2 * 2 ^ 53 := by norm_num
          omega
      · refine ⟨by omega, ?_, ?_⟩
        · have : (2 : Nat) ^ (52 + (dropBits fuel (a / 2) + 1))
              = 2 * 2 ^ (52 + dropBits fuel (a / 2)) := by
            rw [← Nat.add_assoc, pow_succ]; ring
          omega
        · have : (2 : Nat) ^ (53 + (dropBits fuel (a / 2) + 1))
              = 2 * 2 ^ (53 + dropBits fuel (a / 2)) := by
            rw [← Nat.add_assoc, pow_succ]; ring
          omega

theorem dropBits_small (fuel a : Nat) (h : a < 2 ^ 53) : dropBits fuel a = 0 := by
  cases fuel with
  | zero => rfl
  | succ fuel => unfold dropBits; rw [if_pos h]

theorem dropBits_unique (fuel b e : Nat) (hb : b < 2 ^ (53 + fuel)) (he : 1 ≤ e)
    (h1 : 2 ^ (52 + e) ≤ b) (h2 : b < 2 ^ (53 + e)) : dropBits fuel b = e := by
  rcases dropBits_spec fuel b hb with ⟨h3, _⟩ | ⟨h3, h4, h5⟩
  · have : (2 : Nat) ^ 53 ≤ 2 ^ (52 + e) := Nat.pow_le_pow_right (by norm_num) (by omega)
    omega
  · by_contra hne
    rcases Nat.lt_or_gt_of_ne hne with hlt | hgt
    · have : (2 : Nat) ^ (53 + dropBits fuel b) ≤ 2 ^ (52 + e) :=
        Nat.pow_le_pow_right (by norm_num) (by omega)
      omega
    · have : (2 : Nat) ^ (53 + e) ≤ 2 ^ (52 + dropBits fuel b) :=
        Nat.pow_le_pow_right (by norm_num) (by omega)
      omega

/-- Rounding gives a multiple `q * 2 ^ e` with `q` of at most 53 bits. -/
theorem round53_shape (a : Nat) (ha : a < floatBound) :
    round53 a = a ∧ a < 2 ^ 53
    ∨ ∃ e q, 1 ≤ e ∧ round53 a = q * 2 ^ e ∧ 2 ^ 52 ≤ q ∧ q ≤ 2 ^ 53 := by
  rw [floatBound_eq] at ha
  rcases dropBits_spec 971 a ha with ⟨h1, h2⟩ | ⟨h1, h2, h3⟩
  · left
    have : dropBits 1024 a = 0 := dropBits_small 1024 a h1
    unfold round53
    simp only [this, pow_zero, Nat.div_one, Nat.mod_one, Nat.mul_zero, Nat.mul_one]
    refine ⟨?_, h1⟩
    rw [if_neg (by omega)]
  · right
    have hd : dropBits 1024 a = dropBits 971 a := by
      apply dropBits_unique 1024 a _ (lt_of_lt_of_le ha (Nat.pow_le_pow_right (by norm_num) (by omega))) h1 h2 h3
    have hpos : 0 < 2 ^ dropBits 971 a := Nat.two_pow_pos _
    have hq1 : 2 ^ 52 ≤ a / 2 ^ dropBits 971 a := by
      rw [Nat.le_div_iff_mul_le hpos, ← pow_add]; exact h2
    have hq2 : a / 2 ^ dropBits 971 a < 2 ^ 53 := by
      rw [Nat.div_lt_iff_lt_mul hpos, ← pow_add]; exact h3
    unfold round53
    simp only [hd]
    split_ifs
    · exact ⟨_, _, h1, rfl, by omega, by omega⟩
    · exact ⟨_, _, h1, rfl, hq1, by omega⟩

theorem round53_fixed (a : Nat) (ha : a < floatBound) (hr : round53 a < floatBound) :
    round53 (round53 a) = round53 a := by
  rcases round53_shape a ha with ⟨h1, h2⟩ | ⟨e, q, he, hq, h1, h2⟩
  · rw [h1, h1]
  · rw [hq] at hr ⊢
    rw [floatBound_eq] at hr
    have hpos : 0 < 2 ^ e := Nat.two_pow_pos _
    rcases Nat.lt_or_ge q (2 ^ 53) with hlt | hge
    · have hd : dropBits 1024 (q * 2 ^ e) = e := by
        apply dropBits_unique 1024 _ e (lt_of_lt_of_le hr (Nat.pow_le_pow_right (by norm_num) (by omega))) he
        · rw [pow_add]; exact Nat.mul_le_mul_right _ h1
        · rw [pow_add]; exact Nat.mul_lt_mul_of_pos_right hlt hpos
      unfold round53
      simp only [hd, Nat.mul_div_cancel _ hpos, Nat.mul_mod_left]
      rw [if_neg (by omega)]
    · have hq53 : q = 2 ^ 53 := le_antisymm h2 hge
      subst hq53
      have hd : dropBits 1024 (2 ^ 53 * 2 ^ e) = e + 1 := by
        apply dropBits_unique 1024 _ (e + 1) (lt_of_lt_of_le hr (Nat.pow_le_pow_right (by norm_num) (by omega))) (by omega)
        · rw [← pow_add]; exact Nat.pow_le_pow_right (by norm_num) (by omega)
        · rw [← pow_add]; exact Nat.pow_lt_pow_right (by norm_num) (by omega)
      have hval : 2 ^ 53 * 2 ^ e = 2 ^ 52 * 2 ^ (e + 1) := by
        rw [pow_succ]; ring
      have hpos1 : 0 < 2 ^ (e + 1) := Nat.two_pow_pos _
      unfold round53
      simp only [hd]
      rw [hval, Nat.mul_div_cancel _ hpos1, Nat.mul_mod_left]
      rw [if_neg (by omega)]

/-- Parsing the exact value of a float64 gives that float64 back. -/
theorem toFloat64_fixed (n x : Int) (h : toFloat64 n = some x) : toFloat64 x = some x := by
  unfold toFloat64 at h
  split_ifs at h with hb hneg
  · simp only [Option.some.injEq] at h
    subst h
    have hf := round53_fixed n.natAbs hb.1 hb.2
    unfold toFloat64
    have hab : (-(round53 n.natAbs : Int)).natAbs = round53 n.natAbs := by simp
    rw [hab, hf]
    simp only [hb.2, and_self, if_true]
    by_cases hz : round53 n.natAbs = 0
    · simp [hz]
    · have : -(round53 n.natAbs : Int) < 0 := by omega
      simp [this]
  · simp only [Option.some.injEq] at h
    subst h
    have hf := round53_fixed n.natAbs hb.1 hb.2
    unfold toFloat64
    have hab : ((round53 n.natAbs : Int)).natAbs = round53 n.natAbs := by simp
    rw [hab, hf]
    simp only [hb.2, and_self, if_true]
    have : ¬ ((round53 n.natAbs : Int) < 0) := by omega
    simp [this]

theorem insertMember_generic (k : String) (v : JSON) (m : List (String × JSON))
    (hv : generic v) (hm : genericObject m) :
    genericObject (insertMember k v m)
    ∧ ∀ k0 : String, k0.data < k.data → keyBelow k0 m → keyBelow k0 (insertMember k v m) := by
  induction m with
  | nil =>
    refine ⟨?_, fun k0 h _ => h⟩
    simp only [insertMember, genericObject, keyBelow, and_self, hv]
  | cons kv rest ih =>
    obtain ⟨k1, v1⟩ := kv
    simp only [genericObject] at hm
    obtain ⟨h1, h2, h3⟩ := hm
    unfold insertMember
    by_cases hlt : k.data < k1.data
    · simp only [hlt, if_true]
      refine ⟨?_, fun k0 h _ => h⟩
      simp only [genericObject, keyBelow]
      exact ⟨hv, hlt, h1, h2, h3⟩
    · simp only [hlt, if_false]
      by_cases heq : k = k1
      · simp only [heq, if_true]
        refine ⟨?_, fun k0 _ hb => hb⟩
        simp only [genericObject]
        exact ⟨h1, h2, h3⟩
      · simp only [heq, if_false]
        have hgt : k1.data < k.data := by
          rcases lt_trichotomy k.data k1.data with h | h | h
          · exact absurd h hlt
          · exact absurd (String.ext h) heq
          · exact h
        obtain ⟨ih1, ih2⟩ := ih h3
        refine ⟨?_, fun k0 _ hb => hb⟩
        simp only [genericObject]
        exact ⟨h1, ih2 k1 hgt h2, ih1⟩

theorem insertMember_below (k : String) (v : JSON) (m : List (String × JSON))
    (h : keyBelow k m) : insertMember k v m = (k, v) :: m := by
  cases m with
  | nil => rfl
  | cons kv rest =>
    obtain ⟨k1, v1⟩ := kv
    simp only [keyBelow] at h
    simp only [insertMember, h, if_true]

mutual
theorem decodeAny_generic : ∀ (v w : JSON), decodeAny v = Except.ok w → generic w
  | JSON.null, w, h => by
    simp only [decodeAny, Except.ok.injEq] at h; subst h; simp only [generic]
  | JSON.bool b, w, h => by
    simp only [decodeAny, Except.ok.injEq] at h; subst h; simp only [generic]
  | JSON.str s, w, h => by
    simp only [decodeAny, Except.ok.injEq] at h; subst h; simp only [generic]
  | JSON.num n, w, h => by
    simp only [decodeAny] at h
    cases hf : toFloat64 n with
    | none => simp [hf] at h
    | some x =>
      simp only [hf, Except.ok.injEq] at h
      subst h
      simp only [generic]
      exact toFloat64_fixed n x hf
  | JSON.arr xs, w, h => by
    simp only [decodeAny] at h
    cases hd : decodeArray xs with
    | error e => simp [hd] at h
    | ok ys =>
      simp only [hd, Except.ok.injEq] at h
      subst h
      simp only [generic]
      exact decodeArray_generic xs ys hd
  | JSON.obj kvs, w, h => by
    simp only [decodeAny] at h
    cases hd : decodeObject kvs with
    | error e => simp [hd] at h
    | ok m =>
      simp only [hd, Except.ok.injEq] at h
      subst h
      simp only [generic]
      exact decodeObject_generic kvs m hd
theorem decodeArray_generic : ∀ (xs ys : List JSON), decodeArray xs = Except.ok ys →
    genericArray ys
  | [], ys, h => by
    simp only [decodeArray, Except.ok.injEq] at h; subst h; simp only [genericArray]
  | x :: xs, ys, h => by
    simp only [decodeArray] at h
    cases h1 : decodeAny x with
    | error e => simp [h1] at h
    | ok y =>
      cases h2 : decodeArray xs with
      | error e => simp [h1, h2] at h
      | ok ys1 =>
        simp only [h1, h2, Except.ok.injEq] at h
        subst h
        simp only [genericArray]
        exact ⟨decodeAny_generic x y h1, decodeArray_generic xs ys1 h2⟩
theorem decodeObject_generic : ∀ (kvs m : List (String × JSON)),
    decodeObject kvs = Except.ok m → genericObject m
  | [], m, h => by
    simp only [decodeObject, Except.ok.injEq] at h; subst h; simp only [genericObject]
  | (k, v) :: rest, m, h => by
    simp only [decodeObject] at h
    cases h1 : decodeAny v with
    | error e => simp [h1] at h
    | ok y =>
      cases h2 : decodeObject rest with
      | error e => simp [h1, h2] at h
      | ok m1 =>
        simp only [h1, h2, Except.ok.injEq] at h
        subst h
        exact (insertMember_generic k y m1 (decodeAny_generic v y h1)
          (decodeObject_generic rest m1 h2)).1
end

mutual
theorem decodeAny_of_generic : ∀ (w : JSON), generic w → decodeAny w = Except.ok w
  | JSON.null, _ => by simp only [decodeAny]
  | JSON.bool b, _ => by simp only [decodeAny]
  | JSON.str s, _ => by simp only [decodeAny]
  | JSON.num n, h => by
    simp only [generic] at h
    simp only [decodeAny, h]
  | JSON.arr xs, h => by
    simp only [generic] at h
    simp only [decodeAny, decodeArray_of_generic xs h]
  | JSON.obj kvs, h => by
    simp only [generic] at h
    simp only [decodeAny, decodeObject_of_generic kvs h]
theorem decodeArray_of_generic : ∀ (xs : List JSON), genericArray xs →
    decodeArray xs = Except.ok xs
  | [], _ => by simp only [decodeArray]
  | x :: xs, h => by
    simp only [genericArray] at h
    simp only [decodeArray, decodeAny_of_generic x h.1, decodeArray_of_generic xs h.2]
theorem decodeObject_of_generic : ∀ (kvs : List (String × JSON)), genericObject kvs →
    decodeObject kvs = Except.ok kvs
  | [], _ => by simp only [decodeObject]
  | (k, v) :: rest, h => by
    simp only [genericObject] at h
    simp only [decodeObject, decodeAny_of_generic v h.1, decodeObject_of_generic rest h.2.2,
      insertMember_below k v rest h.2.1]
end

/-- A decoded payload decodes to itself. -/
theorem decodeAny_fixed (v w : JSON) (h : decodeAny v = Except.ok w) :
    decodeAny w = Except.ok w :=
  decodeAny_of_generic w (decodeAny_generic v w h)

/-! ## Machine integers -/

theorem wrapInt_of_range (n : Int) (h1 : minInt ≤ n) (h2 : n ≤ maxInt) : wrapInt n = n := by
  unfold wrapInt
  unfold minInt at h1
  unfold maxInt at h2
  omega

theorem wrapInt_range (n : Int) : minInt ≤ wrapInt n ∧ wrapInt n ≤ maxInt := by
  unfold wrapInt minInt maxInt
  omega

/-! ## Encoding and decoding -/

theorem toValidUTF8_ofText (s : String) : (GoString.ofText s).toValidUTF8 = s := by
  unfold GoString.ofText GoString.toValidUTF8
  simp [List.map_map, Function.comp_def]

theorem isText_ofText (s : String) : isText (GoString.ofText s) := by
  unfold isText
  rw [toValidUTF8_ofText]

theorem isText_nil : isText [] := rfl

theorem ofText_eq_nil (s : String) (h : GoString.ofText s = []) : s = "" := by
  unfold GoString.ofText at h
  simp only [List.map_eq_nil_iff] at h
  exact String.ext h

theorem marshal_value (m : Message) (p : JSON) (hp : m.Payload = Any.value p) :
    marshal m = Except.ok (wireOf m) := by
  unfold wireOf marshal
  rw [hp]

theorem marshal_unsupported (m : Message) (kind : String)
    (hp : m.Payload = Any.unsupported kind) :
    marshal m = Except.error (Error.json ("unsupported type: " ++ kind)) := by
  unfold marshal
  rw [hp]

/-- Decoding the encoding of a message: the strings come back as valid UTF-8
and the payload as the generic value. -/
theorem unmarshal_wireOf_value (m : Message) (v p : JSON) (hp : m.Payload = Any.value v)
    (hd : decodeAny v = Except.ok p) (h1 : minInt ≤ m.Attempts) (h2 : m.Attempts ≤ maxInt) :
    unmarshal (wireOf m) Message.zero = Except.ok (received m p) := by
  obtain ⟨id, typ, pl, created, att⟩ := m
  simp only at hp h1 h2
  subst hp
  have hid : foldName "id" = "id" := by decide
  have htype : foldName "type" = "type" := by decide
  have hpay : foldName "payload" = "payload" := by decide
  have hcre : foldName "created_at" = "created_at" := by decide
  have hatt : foldName "attempts" = "attempts" := by decide
  by_cases ht : typ = [] <;> by_cases ha : att = 0 <;>
    simp [wireOf, marshal, unmarshal, decodeFields, setField, decodeString, decodeInt,
      Message.zero, Except.map, received, hid, htype, hpay, hcre, hatt, ht, ha, h1, h2, hd,
      GoString.ofText, GoString.toValidUTF8]

/-- A payload that does not decode makes the record of the message poison. -/
theorem unmarshal_wireOf_error (m : Message) (v : JSON) (e : Error)
    (hp : m.Payload = Any.value v) (hd : decodeAny v = Except.error e) :
    unmarshal (wireOf m) Message.zero = Except.error e := by
  obtain ⟨id, typ, pl, created, att⟩ := m
  simp only at hp
  subst hp
  have hid : foldName "id" = "id" := by decide
  have htype : foldName "type" = "type" := by decide
  have hpay : foldName "payload" = "payload" := by decide
  by_cases ht : typ = [] <;>
    simp [wireOf, marshal, unmarshal, decodeFields, setField, decodeString,
      Message.zero, Except.map, hid, htype, hpay, ht, hd]

theorem received_settled (m : Message) (p : JSON) (hs : settled m)
    (hp : m.Payload = Any.value p) : received m p = m := by
  obtain ⟨h1, h2, h3, _, _⟩ := hs
  obtain ⟨id, typ, pl, created, att⟩ := m
  simp only [isText] at h1 h2 h3 hp
  simp only [received, h1, h2, h3, hp]

/-- Decoding the encoding of a message that came from the wire gives the
message back. -/
theorem unmarshal_wireOf (m : Message) (hs : settled m) :
    unmarshal (wireOf m) Message.zero = Except.ok m := by
  obtain ⟨v, hv, hg⟩ := hs.2.2.2.1
  rw [unmarshal_wireOf_value m v v hv (decodeAny_of_generic v hg) hs.2.2.2.2.1 hs.2.2.2.2.2,
    received_settled m v hs hv]

theorem settled_zero : settled Message.zero :=
  ⟨rfl, rfl, rfl, ⟨JSON.null, rfl, by simp only [generic]⟩, by decide, by decide⟩

theorem decodeString_isText (field : String) (old s : GoString) (v : JSON)
    (ho : isText old) (h : decodeString field old v = Except.ok s) : isText s := by
  unfold decodeString at h
  split at h
  · simp only [Except.ok.injEq] at h; subst h; exact isText_ofText _
  · simp only [Except.ok.injEq] at h; subst h; exact ho
  · simp at h

theorem decodeInt_range (field : String) (old n : Int) (v : JSON)
    (ho : minInt ≤ old ∧ old ≤ maxInt) (h : decodeInt field old v = Except.ok n) :
    minInt ≤ n ∧ n ≤ maxInt := by
  unfold decodeInt at h
  split at h
  · split_ifs at h with hr
    simp only [Except.ok.injEq] at h; subst h; exact hr
  · simp only [Except.ok.injEq] at h; subst h; exact ho
  · simp at h

theorem setField_settled (msg m : Message) (k : String) (v : JSON)
    (h : settled msg) (hs : setField msg k v = Except.ok m) : settled m := by
  obtain ⟨h1, h2, h3, h4, h5⟩ := h
  unfold setField at hs
  simp only at hs
  split_ifs at hs
  · cases hd : decodeString "id" msg.ID v with
    | error e => simp [hd, Except.map] at hs
    | ok s =>
      simp [hd, Except.map] at hs; subst hs
      exact ⟨decodeString_isText _ _ _ _ h1 hd, h2, h3, h4, h5⟩
  · cases hd : decodeString "type" msg.Typ v with
    | error e => simp [hd, Except.map] at hs
    | ok s =>
      simp [hd, Except.map] at hs; subst hs
      exact ⟨h1, decodeString_isText _ _ _ _ h2 hd, h3, h4, h5⟩
  · cases hd : decodeAny v with
    | error e => simp [hd, Except.map] at hs
    | ok p =>
      simp [hd, Except.map] at hs; subst hs
      exact ⟨h1, h2, h3, ⟨p, rfl, decodeAny_generic v p hd⟩, h5⟩
  · cases hd : decodeString "created_at" msg.CreatedAt v with
    | error e => simp [hd, Except.map] at hs
    | ok s =>
      simp [hd, Except.map] at hs; subst hs
      exact ⟨h1, h2, decodeString_isText _ _ _ _ h3 hd, h4, h5⟩
  · cases hd : decodeInt "attempts" msg.Attempts v with
    | error e => simp [hd, Except.map] at hs
    | ok s =>
      simp [hd, Except.map] at hs; subst hs
      exact ⟨h1, h2, h3, h4, decodeInt_range _ _ _ _ h5 hd⟩
  · simp at hs; subst hs; exact ⟨h1, h2, h3, h4, h5⟩

theorem decodeFields_settled (kvs : List (String × JSON)) (msg m : Message)
    (h : settled msg) (hs : decodeFields kvs msg = Except.ok m) : settled m := by
  induction kvs generalizing msg with
  | nil =>
    simp only [decodeFields, Except.ok.injEq] at hs
    subst hs
    exact h
  | cons kv rest ih =>
    obtain ⟨k, v⟩ := kv
    simp only [decodeFields] at hs
    cases hf : setField msg k v with
    | error e => simp [hf] at hs
    | ok m1 =>
      simp only [hf] at hs
      exact ih m1 (setField_settled msg m1 k v h hf) hs

/-- What Dequeue and DeadLetter decode is a settled message. -/
theorem unmarshal_settled (data : Bytes) (m : Message)
    (h : unmarshal data Message.zero = Except.ok m) : settled m := by
  unfold unmarshal at h
  split at h
  · simp at h
  · simp only [Except.ok.injEq] at h
    subst h
    exact settled_zero
  · exact decodeFields_settled _ _ m settled_zero h
  · simp at h

theorem settled_attempts (m : Message) (a : Int) (hs : settled m)
    (h1 : minInt ≤ a) (h2 : a ≤ maxInt) : settled { m with Attempts := a } :=
  ⟨hs.1, hs.2.1, hs.2.2.1, hs.2.2.2.1, h1, h2⟩

theorem settled_bump (m : Message) (hs : settled m) : settled (bump m) :=
  settled_attempts m _ hs (wrapInt_range _).1 (wrapInt_range _).2

theorem settled_payload (m : Message) (hs : settled m) : ∃ p, m.Payload = Any.value p := by
  obtain ⟨v, hv, _⟩ := hs.2.2.2.1
  exact ⟨v, hv⟩

theorem unmarshal_wireOf_bump (m : Message) (hs : settled m) :
    unmarshal (wireOf (bump m)) Message.zero = Except.ok (bump m) :=
  unmarshal_wireOf (bump m) (settled_bump m hs)

/-! ## The store -/

theorem deadName_ne_name (name : String) (N : Int) :
    (NewQueue name N).deadName ≠ (NewQueue name N).name := by
  intro h
  have hlen := congrArg String.length h
  simp [NewQueue, String.length_append] at hlen
  have : (":dead" : String).length = 5 := by decide
  omega

theorem LPush_ok (key : String) (data : Bytes) (r : Redis) :
    LPush none key data r = (none, Function.update r key (data :: r key)) := by
  unfold LPush
  simp only [Prod.mk.injEq, true_and]
  funext k
  by_cases hk : k = key
  · subst hk; simp
  · simp [hk]

theorem LPush_fault (e : String) (key : String) (data : Bytes) (r : Redis) :
    LPush (some e) key data r = (some (Error.store e), r) := rfl

theorem BRPop_snoc (key : String) (r : Redis) (l : List Bytes) (data : Bytes)
    (h : r key = l ++ [data]) :
    BRPop none key r = (Except.ok data, Function.update r key l) := by
  unfold BRPop
  simp only [h, List.getLast?_append, List.getLast?_singleton, Option.or_some,
    List.dropLast_concat, Prod.mk.injEq, true_and]
  funext k
  by_cases hk : k = key
  · subst hk; simp
  · simp [hk]

theorem BRPop_empty (key : String) (r : Redis) (h : r key = []) :
    BRPop none key r = (Except.error Error.redisNil, r) := by
  unfold BRPop
  simp [h]

theorem BRPop_fault (e : String) (key : String) (r : Redis) :
    BRPop (some e) key r = (Except.error (Error.store e), r) := rfl

/-! ## The operations, case by case -/

theorem Dequeue_snoc (q : Queue) (r : Redis) (l : List Bytes) (data : Bytes) (m : Message)
    (h : r q.name = l ++ [data]) (hd : unmarshal data Message.zero = Except.ok m) :
    Dequeue q none r = ((some m, none), Function.update r q.name l) := by
  unfold Dequeue
  rw [BRPop_snoc q.name r l data h]
  simp only [hd]

theorem Dequeue_poison (q : Queue) (r : Redis) (l : List Bytes) (data : Bytes) (e : Error)
    (h : r q.name = l ++ [data]) (hd : unmarshal data Message.zero = Except.error e) :
    Dequeue q none r = ((none, some e), Function.update r q.name l) := by
  unfold Dequeue
  rw [BRPop_snoc q.name r l data h]
  simp only [hd]

theorem Dequeue_empty (q : Queue) (r : Redis) (h : r q.name = []) :
    Dequeue q none r = ((none, none), r) := by
  unfold Dequeue
  rw [BRPop_empty q.name r h]

theorem Dequeue_fault (q : Queue) (e : String) (r : Redis) :
    Dequeue q (some e) r = ((none, some (Error.store e)), r) := rfl

theorem DeadLetter_snoc (q : Queue) (r : Redis) (l : List Bytes) (data : Bytes) (m : Message)
    (h : r q.deadName = l ++ [data]) (hd : unmarshal data Message.zero = Except.ok m) :
    DeadLetter q none r = ((some m, none), Function.update r q.deadName l) := by
  unfold DeadLetter
  rw [BRPop_snoc q.deadName r l data h]
  simp only [hd]

theorem DeadLetter_poison (q : Queue) (r : Redis) (l : List Bytes) (data : Bytes) (e : Error)
    (h : r q.deadName = l ++ [data]) (hd : unmarshal data Message.zero = Except.error e) :
    DeadLetter q none r = ((none, some e), Function.update r q.deadName l) := by
  unfold DeadLetter
  rw [BRPop_snoc q.deadName r l data h]
  simp only [hd]

theorem DeadLetter_empty (q : Queue) (r : Redis) (h : r q.deadName = []) :
    DeadLetter q none r = ((none, none), r) := by
  unfold DeadLetter
  rw [BRPop_empty q.deadName r h]

theorem DeadLetter_fault (q : Queue) (e : String) (r : Redis) :
    DeadLetter q (some e) r = ((none, some (Error.store e)), r) := rfl

theorem Fail_ok (q : Queue) (m : Message) (p : JSON) (r : Redis)
    (hp : m.Payload = Any.value p) :
    Fail q none m r
      = ((bump m, none), Function.update r q.deadName (wireOf (bump m) :: r q.deadName)) := by
  unfold Fail
  have hm : marshal (bump m) = Except.ok (wireOf (bump m)) := marshal_value (bump m) p hp
  unfold bump at hm ⊢
  simp only [hm, LPush_ok]

theorem Fail_fault (q : Queue) (e : String) (m : Message) (p : JSON) (r : Redis)
    (hp : m.Payload = Any.value p) :
    Fail q (some e) m r = ((bump m, some (Error.store e)), r) := by
  unfold Fail
  have hm : marshal (bump m) = Except.ok (wireOf (bump m)) := marshal_value (bump m) p hp
  unfold bump at hm ⊢
  simp only [hm, LPush_fault]

theorem Fail_unsupported (q : Queue) (f : Option String) (m : Message) (kind : String)
    (r : Redis) (hp : m.Payload = Any.unsupported kind) :
    Fail q f m r = ((bump m, some (Error.json ("unsupported type: " ++ kind))), r) := by
  unfold Fail
  have hm := marshal_unsupported (bump m) kind hp
  unfold bump at hm ⊢
  simp only [hm]

theorem Retry_dead (q : Queue) (f : Option String) (m : Message) (r : Redis)
    (h : q.maxTries ≤ wrapInt (m.Attempts + 1)) :
    Retry q f m r = Fail q f (bump m) r := by
  unfold Retry bump
  simp only [ge_iff_le, h, if_true]

theorem Retry_live (q : Queue) (m : Message) (p : JSON) (r : Redis)
    (hp : m.Payload = Any.value p) (h : wrapInt (m.Attempts + 1) < q.maxTries) :
    Retry q none m r
      = ((bump m, none), Function.update r q.name (wireOf (bump m) :: r q.name)) := by
  unfold Retry
  have hm : marshal (bump m) = Except.ok (wireOf (bump m)) := marshal_value (bump m) p hp
  unfold bump at hm ⊢
  simp only [ge_iff_le, not_le.mpr h, if_false, hm, LPush_ok]

theorem Retry_live_fault (q : Queue) (e : String) (m : Message) (p : JSON) (r : Redis)
    (hp : m.Payload = Any.value p) (h : wrapInt (m.Attempts + 1) < q.maxTries) :
    Retry q (some e) m r = ((bump m, some (Error.store e)), r) := by
  unfold Retry
  have hm : marshal (bump m) = Except.ok (wireOf (bump m)) := marshal_value (bump m) p hp
  unfold bump at hm ⊢
  simp only [ge_iff_le, not_le.mpr h, if_false, hm, LPush_fault]

theorem Retry_live_unsupported (q : Queue) (f : Option String) (m : Message) (kind : String)
    (r : Redis) (hp : m.Payload = Any.unsupported kind)
    (h : wrapInt (m.Attempts + 1) < q.maxTries) :
    Retry q f m r = ((bump m, some (Error.json ("unsupported type: " ++ kind))), r) := by
  unfold Retry
  have hm := marshal_unsupported (bump m) kind hp
  unfold bump at hm ⊢
  simp only [ge_iff_le, not_le.mpr h, if_false, hm]

theorem Enqueue_ok (q : Queue) (uuid now : String) (typ : GoString) (p : JSON) (r : Redis) :
    Enqueue q none uuid now typ (Any.value p) r
      = ((GoString.ofText uuid, none),
         Function.update r q.name (wireOf (enqueued uuid now typ p) :: r q.name)) := by
  have hm := marshal_value (enqueued uuid now typ p) p rfl
  unfold enqueued at hm ⊢
  unfold Enqueue
  simp only [hm, LPush_ok]

/-- The message a consumer receives for an enqueued one is settled. -/
theorem received_enqueued_settled (uuid now : String) (typ : GoString) (v p : JSON)
    (hd : decodeAny v = Except.ok p) : settled (received (enqueued uuid now typ v) p) := by
  refine ⟨isText_ofText _, isText_ofText _, isText_ofText _,
    ⟨p, rfl, decodeAny_generic v p hd⟩,
    by simp only [received, enqueued, minInt]; omega,
    by simp only [received, enqueued, maxInt]; omega⟩

/-- A round on a live list holding one message that has retries left puts the
message back with one more attempt and touches nothing else. -/
theorem consumerRound_live (name : String) (N : Int) (m : Message) (r : Redis)
    (hs : settled m) (h2 : m.Attempts + 1 < N)
    (hN : N ≤ maxInt) (hlive : r name = [wireOf m]) :
    consumerRound (NewQueue name N) r
      = Function.update r name [wireOf { m with Attempts := m.Attempts + 1 }] := by
  obtain ⟨p, hp⟩ := settled_payload m hs
  have h1 : minInt ≤ m.Attempts := hs.2.2.2.2.1
  have hb : bump m = { m with Attempts := m.Attempts + 1 } := by
    unfold bump
    rw [wrapInt_of_range _ (by omega) (by omega)]
  have hd : Dequeue (NewQueue name N) none r = ((some m, none), Function.update r name []) :=
    Dequeue_snoc (NewQueue name N) r [] (wireOf m) m (by simpa [NewQueue] using hlive)
      (unmarshal_wireOf m hs)
  have hr := Retry_live (NewQueue name N) m p (Function.update r name []) hp
    (by rw [wrapInt_of_range _ (by omega) (by omega)]; simpa [NewQueue] using h2)
  unfold consumerRound consumerStep
  rw [hd]
  simp only [hr, hb]
  simp [NewQueue]

/-- A round on a live list holding one message that has no retry left moves
the message to the dead-letter list, with two more attempts. -/
theorem consumerRound_dead (name : String) (N : Int) (m : Message) (r : Redis)
    (hs : settled m) (h2 : N ≤ m.Attempts + 1)
    (h3 : m.Attempts < maxInt) (hlive : r name = [wireOf m]) :
    consumerRound (NewQueue name N) r
      = Function.update (Function.update r name []) (name ++ ":dead")
          (wireOf { m with Attempts := wrapInt (m.Attempts + 2) } :: r (name ++ ":dead")) := by
  obtain ⟨p, hp⟩ := settled_payload m hs
  have h1 : minInt ≤ m.Attempts := hs.2.2.2.2.1
  have hb : bump m = { m with Attempts := m.Attempts + 1 } := by
    unfold bump
    rw [wrapInt_of_range _ (by omega) (by omega)]
  have hbb : bump (bump m) = { m with Attempts := wrapInt (m.Attempts + 2) } := by
    rw [hb]
    unfold bump
    simp only [add_assoc]
    rfl
  have hd : Dequeue (NewQueue name N) none r = ((some m, none), Function.update r name []) :=
    Dequeue_snoc (NewQueue name N) r [] (wireOf m) m (by simpa [NewQueue] using hlive)
      (unmarshal_wireOf m hs)
  have hr := Retry_dead (NewQueue name N) none m (Function.update r name [])
    (by rw [wrapInt_of_range _ (by omega) (by omega)]; simpa [NewQueue] using h2)
  have hf := Fail_ok (NewQueue name N) (bump m) p (Function.update r name []) hp
  have hne : name ++ ":dead" ≠ name := deadName_ne_name name N
  unfold consumerRound consumerStep
  rw [hd]
  simp only [hr, hf, hbb]
  simp [NewQueue, Function.update_noteq hne]

/-- The store after `j` rounds, while the message has retries left. -/
theorem rounds_live (name : String) (N : Int) (m : Message) (r : Redis)
    (hs : settled m) (ha : m.Attempts = 0) (hN : N ≤ maxInt)
    (hlive : r name = [wireOf m]) (j : Nat) (hj : (j : Int) < N) :
    (consumerRound (NewQueue name N))^[j] r
      = Function.update r name [wireOf { m with Attempts := j }] := by
  induction j with
  | zero =>
    have : ({ m with Attempts := ((0 : Nat) : Int) } : Message) = m := by
      obtain ⟨id, typ, pl, created, att⟩ := m
      simp only at ha
      subst ha
      rfl
    rw [this, ← hlive]
    simp
  | succ j ih =>
    have hj1 : (j : Int) < N := by push_cast at hj; omega
    rw [Function.iterate_succ_apply', ih hj1]
    have h := consumerRound_live name N { m with Attempts := j }
      (Function.update r name [wireOf { m with Attempts := j }])
      (settled_attempts m j hs (by simp only [minInt]; omega) (by omega))
      (by push_cast at hj; simpa using hj) hN (by simp)
    rw [h]
    simp

/-- The store after as many rounds as `maxTries`. -/
theorem rounds_dead (name : String) (N : Nat) (m : Message) (r : Redis)
    (hs : settled m) (ha : m.Attempts = 0) (h1 : 1 ≤ N)
    (hN : (N : Int) ≤ maxInt) (hlive : r name = [wireOf m]) :
    (consumerRound (NewQueue name N))^[N] r
      = Function.update (Function.update r name []) (name ++ ":dead")
          (wireOf { m with Attempts := wrapInt (N + 1) } :: r (name ++ ":dead")) := by
  obtain ⟨n, rfl⟩ : ∃ n, N = n + 1 := ⟨N - 1, by omega⟩
  have hne : name ++ ":dead" ≠ name := deadName_ne_name name 0
  rw [Function.iterate_succ_apply',
    rounds_live name _ m r hs ha hN hlive n (by push_cast; omega)]
  have h := consumerRound_dead name ((n + 1 : Nat) : Int) { m with Attempts := n }
    (Function.update r name [wireOf { m with Attempts := n }])
    (settled_attempts m n hs (by simp only [minInt]; omega)
      (by simp only [maxInt] at hN ⊢; push_cast at hN; omega))
    (by push_cast; simp)
    (by simp only [maxInt] at hN ⊢; push_cast at hN; omega) (by simp)
  rw [h]
  simp [Function.update_noteq hne, add_assoc]

/-- A round sees the record on the live list only through the message it
decodes to. -/
theorem consumerRound_record (q : Queue) (data : Bytes) (m : Message) (r : Redis)
    (hm : unmarshal data Message.zero = Except.ok m) (hlive : r q.name = [data]) :
    consumerRound q r = consumerRound q (Function.update r q.name [wireOf m]) := by
  have hs := unmarshal_settled data m hm
  have h1 := Dequeue_snoc q r [] data m (by simpa using hlive) hm
  have h2 := Dequeue_snoc q (Function.update r q.name [wireOf m]) [] (wireOf m) m (by simp)
    (unmarshal_wireOf m hs)
  unfold consumerRound consumerStep
  rw [h1, h2]
  simp

theorem rounds_record (q : Queue) (data : Bytes) (m : Message) (r : Redis)
    (hm : unmarshal data Message.zero = Except.ok m) (hlive : r q.name = [data]) (j : Nat) :
    (consumerRound q)^[j + 1] r
      = (consumerRound q)^[j + 1] (Function.update r q.name [wireOf m]) := by
  rw [Function.iterate_succ_apply, Function.iterate_succ_apply,
    consumerRound_record q data m r hm hlive]

/-- C1: for a queue with max_tries = N >= 1 whose live list holds one message
with attempts = 0, a message as Dequeue returns it, after each of the first N-1
Dequeue-then-Retry rounds the message is back in the live list (the next
Dequeue returns it) and the dead-letter list is unchanged; after the Nth round
the live list is empty, the dead-letter list has one more record, that of the
message, and Dequeue finds no message; the Nth Retry call itself pushes onto
the dead-letter list and leaves the live list as it is. -/
theorem retry_rounds_then_dead_letter (name : String) (N : Nat) (m : Message)
    (r : Redis) (hN : 1 ≤ N) (hmax : (N : Int) ≤ maxInt)
    (hm : unmarshal (wireOf m) Message.zero = Except.ok m) (ha : m.Attempts = 0)
    (hlive : r name = [wireOf m]) :
    (∀ j : Nat, j < N →
      ((consumerRound (NewQueue name N))^[j] r) (NewQueue name N).name
          = [wireOf { m with Attempts := j }]
      ∧ ((consumerRound (NewQueue name N))^[j] r) (NewQueue name N).deadName
          = r (NewQueue name N).deadName
      ∧ (Dequeue (NewQueue name N) none ((consumerRound (NewQueue name N))^[j] r)).1
          = (some { m with Attempts := j }, none))
    ∧ ((consumerRound (NewQueue name N))^[N] r) (NewQueue name N).name = []
    ∧ ((consumerRound (NewQueue name N))^[N] r) (NewQueue name N).deadName
        = wireOf { m with Attempts := wrapInt (N + 1) } :: r (NewQueue name N).deadName
    ∧ (Dequeue (NewQueue name N) none ((consumerRound (NewQueue name N))^[N] r)).1
        = (none, none)
    ∧ (∀ r1 : Redis,
        (Retry (NewQueue name N) none { m with Attempts := (N : Int) - 1 } r1).1.2 = none
        ∧ (Retry (NewQueue name N) none { m with Attempts := (N : Int) - 1 } r1).2
              (NewQueue name N).name = r1 (NewQueue name N).name
        ∧ (Retry (NewQueue name N) none { m with Attempts := (N : Int) - 1 } r1).2
              (NewQueue name N).deadName
            = wireOf { m with Attempts := wrapInt (N + 1) } :: r1 (NewQueue name N).deadName) := by
  have hs : settled m := unmarshal_settled _ m hm
  obtain ⟨p, hp⟩ := settled_payload m hs
  have hne : name ++ ":dead" ≠ name := deadName_ne_name name 0
  have hqn : (NewQueue name N).name = name := rfl
  have hqd : (NewQueue name N).deadName = name ++ ":dead" := rfl
  refine ⟨?_, ?_, ?_, ?_, ?_⟩
  · intro j hj
    have hj1 : (j : Int) < (N : Int) := by exact_mod_cast hj
    have hsj := rounds_live name N m r hs ha hmax hlive j hj1
    rw [hsj, hqn, hqd]
    refine ⟨by simp, by simp [Function.update_noteq hne], ?_⟩
    have hd := Dequeue_snoc (NewQueue name N)
      (Function.update r name [wireOf { m with Attempts := j }]) []
      (wireOf { m with Attempts := j }) { m with Attempts := j } (by simp [NewQueue])
      (unmarshal_wireOf _ (settled_attempts m j hs (by simp only [minInt]; omega) (by omega)))
    rw [hd]
  · rw [rounds_dead name N m r hs ha hN hmax hlive, hqn]
    simp [Function.update_noteq hne.symm]
  · rw [rounds_dead name N m r hs ha hN hmax hlive, hqd]
    simp
  · rw [rounds_dead name N m r hs ha hN hmax hlive]
    rw [Dequeue_empty _ _ (by simp [NewQueue, Function.update_noteq hne.symm])]
  · intro r1
    have hlt : ((N : Int) - 1) < maxInt := by omega
    have hw : wrapInt ((N : Int) - 1 + 1) = N := by
      rw [wrapInt_of_range _ (by simp only [minInt]; omega) (by omega)]
      omega
    have hr := Retry_dead (NewQueue name N) none { m with Attempts := (N : Int) - 1 } r1
      (by simp only [hw]; exact le_refl _)
    have hf := Fail_ok (NewQueue name N) (bump { m with Attempts := (N : Int) - 1 }) p r1 hp
    have hbb : bump (bump { m with Attempts := (N : Int) - 1 })
        = { m with Attempts := wrapInt (N + 1) } := by
      unfold bump
      simp only [hw]
    rw [hr, hf, hbb, hqn, hqd]
    refine ⟨rfl, by simp [Function.update_noteq hne.symm], by simp⟩

/-- C1, at max_tries = 3 on the store `demoStore`: the message is back after
round 2 with attempts = 2 and is gone from the live list after round 3. -/
theorem retry_rounds_then_dead_letter_witness :
    (1 ≤ 3 ∧ ((3 : Nat) : Int) ≤ maxInt
      ∧ unmarshal (wireOf demoMsg) Message.zero = Except.ok demoMsg
      ∧ demoMsg.Attempts = 0 ∧ demoStore "orders" = [wireOf demoMsg])
    ∧ (Dequeue (NewQueue "orders" (3 : Nat)) none
        ((consumerRound (NewQueue "orders" (3 : Nat)))^[2] demoStore)).1
        = (some { demoMsg with Attempts := (2 : Nat) }, none)
    ∧ ((consumerRound (NewQueue "orders" (3 : Nat)))^[3] demoStore)
        (NewQueue "orders" (3 : Nat)).name = [] :=
  ⟨⟨by decide, by decide, rfl, rfl, rfl⟩,
   ((retry_rounds_then_dead_letter "orders" 3 demoMsg demoStore
      (by decide) (by decide) rfl rfl rfl).1 2 (by decide)).2.2,
   (retry_rounds_then_dead_letter "orders" 3 demoMsg demoStore
      (by decide) (by decide) rfl rfl rfl).2.1⟩

theorem unmarshal_enqueued (uuid now : String) (typ : GoString) (p p1 : JSON)
    (hdec : decodeAny p = Except.ok p1) :
    unmarshal (wireOf (enqueued uuid now typ p)) Message.zero
      = Except.ok (received (enqueued uuid now typ p) p1) :=
  unmarshal_wireOf_value (enqueued uuid now typ p) p p1 rfl hdec
    (by simp only [enqueued, minInt]; omega) (by simp only [enqueued, maxInt]; omega)

theorem received_enqueued (uuid now : String) (typ : GoString) (p p1 : JSON) :
    received (enqueued uuid now typ p) p1
      = { ID := GoString.ofText uuid, Typ := GoString.ofText typ.toValidUTF8,
          Payload := Any.value p1, CreatedAt := GoString.ofText now, Attempts := 0 } := by
  simp only [received, enqueued, toValidUTF8_ofText]

/-- The store after Enqueue on an empty live list and `j + 1` rounds is the
store after `j + 1` rounds on the record of the message as received. -/
theorem rounds_after_enqueue (name : String) (N : Int) (uuid now : String) (typ : GoString)
    (p p1 : JSON) (r : Redis) (hdec : decodeAny p = Except.ok p1) (hlive : r name = [])
    (j : Nat) :
    (consumerRound (NewQueue name N))^[j + 1]
        (Enqueue (NewQueue name N) none uuid now typ (Any.value p) r).2
      = (consumerRound (NewQueue name N))^[j + 1]
          (Function.update r name [wireOf (received (enqueued uuid now typ p) p1)]) := by
  rw [Enqueue_ok]
  have h := rounds_record (NewQueue name N) (wireOf (enqueued uuid now typ p))
    (received (enqueued uuid now typ p) p1)
    (Function.update r (NewQueue name N).name
      (wireOf (enqueued uuid now typ p) :: r (NewQueue name N).name))
    (unmarshal_enqueued uuid now typ p p1 hdec) (by simp [NewQueue, hlive]) j
  simp only at h ⊢
  rw [h]
  simp [NewQueue]

/-- C5: Dequeue does not change attempts.  On a queue with max_tries = N whose
live list is empty, after Enqueue of a payload that decodes and k < N rounds of
Dequeue followed by Retry, the next Dequeue returns the enqueued message, with
the id Enqueue returned, and with attempts = k. -/
theorem dequeue_attempts_counts_retries (name : String) (N : Int) (uuid now : String)
    (typ : GoString) (p p1 : JSON) (r : Redis) (k : Nat) (hmax : N ≤ maxInt)
    (hk : (k : Int) < N) (hlive : r name = []) (hdec : decodeAny p = Except.ok p1) :
    (Enqueue (NewQueue name N) none uuid now typ (Any.value p) r).1
      = (GoString.ofText uuid, none)
    ∧ (Dequeue (NewQueue name N) none
        ((consumerRound (NewQueue name N))^[k]
          (Enqueue (NewQueue name N) none uuid now typ (Any.value p) r).2)).1
      = (some { ID := GoString.ofText uuid, Typ := GoString.ofText typ.toValidUTF8,
                Payload := Any.value p1, CreatedAt := GoString.ofText now,
                Attempts := k }, none) := by
  refine ⟨by rw [Enqueue_ok], ?_⟩
  have hs := received_enqueued_settled uuid now typ p p1 hdec
  have hrec := received_enqueued uuid now typ p p1
  cases k with
  | zero =>
    rw [Function.iterate_zero, id_eq, Enqueue_ok]
    have hd := Dequeue_snoc (NewQueue name N)
      (Function.update r (NewQueue name N).name
        (wireOf (enqueued uuid now typ p) :: r (NewQueue name N).name))
      [] (wireOf (enqueued uuid now typ p)) (received (enqueued uuid now typ p) p1)
      (by simp [NewQueue, hlive]) (unmarshal_enqueued uuid now typ p p1 hdec)
    rw [hd, hrec]
    rfl
  | succ j =>
    rw [rounds_after_enqueue name N uuid now typ p p1 r hdec hlive j,
      rounds_live name N (received (enqueued uuid now typ p) p1) _ hs rfl hmax (by simp)
        (j + 1) hk]
    have hd := Dequeue_snoc (NewQueue name N)
      (Function.update (Function.update r name
        [wireOf (received (enqueued uuid now typ p) p1)]) name
        [wireOf { received (enqueued uuid now typ p) p1 with Attempts := ((j + 1 : Nat) : Int) }])
      [] _ { received (enqueued uuid now typ p) p1 with Attempts := ((j + 1 : Nat) : Int) }
      (by simp [NewQueue])
      (unmarshal_wireOf _ (settled_attempts _ _ hs (by simp only [minInt]; omega) (by omega)))
    rw [hd, hrec]

/-- C5, at max_tries = 3 and k = 2 on the empty store. -/
theorem dequeue_attempts_counts_retries_witness :
    (((3 : Int) ≤ maxInt ∧ ((2 : Nat) : Int) < 3 ∧ emptyStore "orders" = []
        ∧ decodeAny (JSON.num 42) = Except.ok (JSON.num 42))
    ∧ (Dequeue (NewQueue "orders" 3) none
        ((consumerRound (NewQueue "orders" 3))^[2]
          (Enqueue (NewQueue "orders" 3) none "X" "2024-01-01T00:00:00Z"
            (GoString.ofText "order.created") (Any.value (JSON.num 42)) emptyStore).2)).1
      = (some { ID := GoString.ofText "X",
                Typ := GoString.ofText (GoString.ofText "order.created").toValidUTF8,
                Payload := Any.value (JSON.num 42),
                CreatedAt := GoString.ofText "2024-01-01T00:00:00Z",
                Attempts := (2 : Nat) }, none)) :=
  ⟨⟨by decide, by decide, rfl, rfl⟩,
   (dequeue_attempts_counts_retries "orders" 3 "X" "2024-01-01T00:00:00Z"
      (GoString.ofText "order.created") (JSON.num 42) (JSON.num 42) emptyStore 2
      (by decide) (by decide) rfl rfl).2⟩

/-- C2: on a queue with max_tries = N >= 1 (N below the largest int) whose
live and dead-letter lists are empty, after Enqueue of a payload that decodes
and N rounds of Dequeue followed by Retry the live list is empty and DeadLetter
returns the enqueued message with attempts = N + 1, not N: the Retry call that
dead-letters a message with attempts = N - 1 raises its attempts by two, once
in Retry and once more in Fail. -/
theorem dead_letter_attempts_after_rounds (name : String) (N : Nat) (uuid now : String)
    (typ : GoString) (p p1 : JSON) (r : Redis) (hN : 1 ≤ N) (hmax : (N : Int) < maxInt)
    (hlive : r name = []) (hdead : r (name ++ ":dead") = [])
    (hdec : decodeAny p = Except.ok p1) :
    ((consumerRound (NewQueue name N))^[N]
        (Enqueue (NewQueue name N) none uuid now typ (Any.value p) r).2) name = []
    ∧ (DeadLetter (NewQueue name N) none
        ((consumerRound (NewQueue name N))^[N]
          (Enqueue (NewQueue name N) none uuid now typ (Any.value p) r).2)).1
      = (some { ID := GoString.ofText uuid, Typ := GoString.ofText typ.toValidUTF8,
                Payload := Any.value p1, CreatedAt := GoString.ofText now,
                Attempts := (N : Int) + 1 }, none)
    ∧ (Retry (NewQueue name N) none
        { ID := GoString.ofText uuid, Typ := GoString.ofText typ.toValidUTF8,
          Payload := Any.value p1, CreatedAt := GoString.ofText now,
          Attempts := (N : Int) - 1 } r).1.1.Attempts = ((N : Int) - 1) + 2 := by
  have hne : name ++ ":dead" ≠ name := deadName_ne_name name 0
  have hw : wrapInt ((N : Int) + 1) = (N : Int) + 1 :=
    wrapInt_of_range _ (by simp only [minInt]; omega) (by omega)
  have hs := received_enqueued_settled uuid now typ p p1 hdec
  have hrec := received_enqueued uuid now typ p p1
  obtain ⟨n, rfl⟩ : ∃ n, N = n + 1 := ⟨N - 1, by omega⟩
  have hrd : (consumerRound (NewQueue name ((n + 1 : Nat) : Int)))^[n + 1]
      (Enqueue (NewQueue name ((n + 1 : Nat) : Int)) none uuid now typ (Any.value p) r).2
      = Function.update (Function.update r name []) (name ++ ":dead")
          [wireOf { received (enqueued uuid now typ p) p1 with
            Attempts := ((n + 1 : Nat) : Int) + 1 }] := by
    rw [rounds_after_enqueue name _ uuid now typ p p1 r hdec hlive n,
      rounds_dead name (n + 1) (received (enqueued uuid now typ p) p1) _ hs rfl hN
        (by omega) (by simp), hw]
    simp [Function.update_noteq hne, hdead]
  refine ⟨?_, ?_, ?_⟩
  · rw [hrd]
    simp [Function.update_noteq hne.symm]
  · rw [hrd]
    have hd := DeadLetter_snoc (NewQueue name ((n + 1 : Nat) : Int))
      (Function.update (Function.update r name []) (name ++ ":dead")
        [wireOf { received (enqueued uuid now typ p) p1 with
          Attempts := ((n + 1 : Nat) : Int) + 1 }])
      [] _ { received (enqueued uuid now typ p) p1 with Attempts := ((n + 1 : Nat) : Int) + 1 }
      (by simp [NewQueue])
      (unmarshal_wireOf _ (settled_attempts _ _ hs (by simp only [minInt]; omega) (by omega)))
    rw [hd, hrec]
  · have hw1 : wrapInt (((n + 1 : Nat) : Int) - 1 + 1) = ((n + 1 : Nat) : Int) := by
      rw [wrapInt_of_range _ (by simp only [minInt]; omega) (by omega)]
      omega
    rw [Retry_dead (NewQueue name _) none _ r (by simp only [hw1]; exact le_refl _),
      Fail_ok (NewQueue name _) _ p1 r rfl]
    unfold bump
    simp only [hw1, hw]
    omega

/-- C2, the scenario of the specification: max_tries = 3, three rounds, and
DeadLetter returns the message with attempts = 4. -/
theorem dead_letter_attempts_after_rounds_witness :
    ((1 ≤ 3 ∧ ((3 : Nat) : Int) < maxInt ∧ emptyStore "orders" = []
        ∧ emptyStore ("orders" ++ ":dead") = []
        ∧ decodeAny (JSON.num 42) = Except.ok (JSON.num 42))
    ∧ (DeadLetter (NewQueue "orders" (3 : Nat)) none
        ((consumerRound (NewQueue "orders" (3 : Nat)))^[3]
          (Enqueue (NewQueue "orders" (3 : Nat)) none "X" "2024-01-01T00:00:00Z"
            (GoString.ofText "order.created") (Any.value (JSON.num 42)) emptyStore).2)).1
      = (some { ID := GoString.ofText "X",
                Typ := GoString.ofText (GoString.ofText "order.created").toValidUTF8,
                Payload := Any.value (JSON.num 42),
                CreatedAt := GoString.ofText "2024-01-01T00:00:00Z", Attempts := 4 }, none)) :=
  ⟨⟨by decide, by decide, rfl, rfl, rfl⟩,
   (dead_letter_attempts_after_rounds "orders" 3 "X" "2024-01-01T00:00:00Z"
      (GoString.ofText "order.created") (JSON.num 42) (JSON.num 42) emptyStore
      (by decide) (by decide) rfl rfl rfl).2.1⟩

theorem Dequeue_last (q : Queue) (r : Redis) (l : List Bytes) (data : Bytes)
    (h : r q.name = l ++ [data]) :
    Dequeue q none r = (delivery data, Function.update r q.name l) := by
  unfold delivery
  cases hd : unmarshal data Message.zero with
  | error e => rw [Dequeue_poison q r l data e h hd]
  | ok m => rw [Dequeue_snoc q r l data m h hd]

theorem enqueueAll_live (q : Queue) (xs : List Request) (r : Redis) :
    enqueueAll q xs r
      = Function.update r q.name ((xs.map (fun x => wireOf x.message)).reverse ++ r q.name) := by
  induction xs generalizing r with
  | nil => simp [enqueueAll]
  | cons x xs ih =>
    unfold enqueueAll
    rw [Enqueue_ok, ih]
    simp [Request.message]

theorem dequeueN_live (q : Queue) (xs : List Request) (r : Redis)
    (h : r q.name = (xs.map (fun x => wireOf x.message)).reverse) :
    dequeueN q xs.length r = xs.map (fun x => delivery (wireOf x.message)) := by
  induction xs generalizing r with
  | nil => rfl
  | cons x xs ih =>
    have hd := Dequeue_last q r (xs.map (fun x => wireOf x.message)).reverse
      (wireOf x.message) (by simpa using h)
    simp only [List.length_cons, dequeueN, hd, List.map_cons]
    rw [ih _ (by simp)]

theorem delivery_enqueued (uuid now : String) (typ : GoString) (p p1 : JSON)
    (hdec : decodeAny p = Except.ok p1) :
    delivery (wireOf (enqueued uuid now typ p))
      = (some { ID := GoString.ofText uuid, Typ := GoString.ofText typ.toValidUTF8,
                Payload := Any.value p1, CreatedAt := GoString.ofText now, Attempts := 0 },
         none) := by
  unfold delivery
  rw [unmarshal_enqueued uuid now typ p p1 hdec, received_enqueued]

/-- C3: FIFO.  Enqueue pushes at the head of the live list, in front of the
records already there, and Dequeue pops at the tail; so on an initially empty
live list, after Enqueue of A and then of B two Dequeue calls return A and then
B, and after any sequence of Enqueue calls as many Dequeue calls pop the
records in the order they were enqueued. -/
theorem fifo_order (q : Queue) (r : Redis) (A B : Request) (pA pB : JSON)
    (xs : List Request) (hlive : r q.name = [])
    (hA : decodeAny A.payload = Except.ok pA) (hB : decodeAny B.payload = Except.ok pB) :
    ((Dequeue q none
        (Enqueue q none B.uuid B.now B.msgType (Any.value B.payload)
          (Enqueue q none A.uuid A.now A.msgType (Any.value A.payload) r).2).2).1
        = (some { ID := GoString.ofText A.uuid, Typ := GoString.ofText A.msgType.toValidUTF8,
                  Payload := Any.value pA, CreatedAt := GoString.ofText A.now,
                  Attempts := 0 }, none)
      ∧ (Dequeue q none (Dequeue q none
          (Enqueue q none B.uuid B.now B.msgType (Any.value B.payload)
            (Enqueue q none A.uuid A.now A.msgType (Any.value A.payload) r).2).2).2).1
        = (some { ID := GoString.ofText B.uuid, Typ := GoString.ofText B.msgType.toValidUTF8,
                  Payload := Any.value pB, CreatedAt := GoString.ofText B.now,
                  Attempts := 0 }, none))
    ∧ dequeueN q xs.length (enqueueAll q xs r) = xs.map (fun x => delivery (wireOf x.message))
    ∧ (∀ r0 : Redis, (enqueueAll q xs r0) q.name
        = (xs.map (fun x => wireOf x.message)).reverse ++ r0 q.name) := by
  have hgen : ∀ ys : List Request,
      dequeueN q ys.length (enqueueAll q ys r)
        = ys.map (fun x => delivery (wireOf x.message)) := by
    intro ys
    apply dequeueN_live
    rw [enqueueAll_live]
    simp [hlive]
  refine ⟨?_, hgen xs, ?_⟩
  · have h2 := hgen [A, B]
    simp only [List.length_cons, List.length_nil, enqueueAll, dequeueN, List.map_cons,
      List.map_nil, List.cons.injEq, and_true, Request.message,
      delivery_enqueued _ _ _ _ _ hA, delivery_enqueued _ _ _ _ _ hB] at h2
    exact h2
  · intro r0
    rw [enqueueAll_live]
    simp

/-- C3, on the empty store, for two messages that differ in id, time and type. -/
theorem fifo_order_witness :
    (emptyStore (NewQueue "orders" 3).name = []
      ∧ decodeAny JSON.null = Except.ok JSON.null)
    ∧ (Dequeue (NewQueue "orders" 3) none
        (Enqueue (NewQueue "orders" 3) none "B" "t1" (GoString.ofText "b") (Any.value JSON.null)
          (Enqueue (NewQueue "orders" 3) none "A" "t0" (GoString.ofText "a")
            (Any.value JSON.null) emptyStore).2).2).1
      = (some { ID := GoString.ofText "A",
                Typ := GoString.ofText (GoString.ofText "a").toValidUTF8,
                Payload := Any.value JSON.null, CreatedAt := GoString.ofText "t0",
                Attempts := 0 }, none) :=
  ⟨⟨rfl, rfl⟩,
   (fifo_order (NewQueue "orders" 3) emptyStore
      { uuid := "A", now := "t0", msgType := GoString.ofText "a", payload := JSON.null }
      { uuid := "B", now := "t1", msgType := GoString.ofText "b", payload := JSON.null }
      JSON.null JSON.null [] rfl rfl rfl).1.1⟩

theorem payload_cases (m : Message) :
    (∃ p, m.Payload = Any.value p) ∨ (∃ kind, m.Payload = Any.unsupported kind) := by
  cases h : m.Payload with
  | value p => exact Or.inl ⟨p, rfl⟩
  | unsupported kind => exact Or.inr ⟨kind, rfl⟩

/-- C4 (amended): Enqueue/Dequeue round trip.  On an empty live list, if
Enqueue succeeds and returns the id X, then X is the id the call drew, the
record pushed has no `attempts`
member and has a `type` member only for a type that is not empty, and the next
Dequeue returns the message with id X, the created_at that Enqueue built and
attempts = 0, with the type as written on the wire (each byte that is not valid
UTF-8 replaced by U+FFFD, so the type itself when it is valid UTF-8) and with
the payload as decoded into `any` (numbers as float64, objects as maps, so the
payload itself when it is such a value); when the payload does not decode,
Dequeue returns the error.  Enqueue does succeed on every payload that
`json.Marshal` accepts when the store is reachable. -/
theorem enqueue_dequeue_round_trip (q : Queue) (fault : Option String)
    (uuid now : String) (typ : GoString) (p : JSON) (r : Redis) (X : GoString)
    (hlive : r q.name = [])
    (hok : (Enqueue q fault uuid now typ (Any.value p) r).1 = (X, none)) :
    X = GoString.ofText uuid
    ∧ ((Enqueue q fault uuid now typ (Any.value p) r).2 q.name
          = [Bytes.text (JSON.obj ([("id", JSON.str uuid)]
              ++ (if typ = [] then [] else [("type", JSON.str typ.toValidUTF8)])
              ++ [("payload", p), ("created_at", JSON.str now)]))]
        ∧ (∀ p1 : JSON, decodeAny p = Except.ok p1 →
            (Dequeue q none (Enqueue q fault uuid now typ (Any.value p) r).2).1
              = (some { ID := X, Typ := GoString.ofText typ.toValidUTF8,
                        Payload := Any.value p1, CreatedAt := GoString.ofText now,
                        Attempts := 0 }, none))
        ∧ (isText typ → generic p →
            (Dequeue q none (Enqueue q fault uuid now typ (Any.value p) r).2).1
              = (some { ID := X, Typ := typ, Payload := Any.value p,
                        CreatedAt := GoString.ofText now, Attempts := 0 }, none))
        ∧ (∀ e : Error, decodeAny p = Except.error e →
            (Dequeue q none (Enqueue q fault uuid now typ (Any.value p) r).2).1 = (none, some e)))
    ∧ (∀ p : JSON, (Enqueue q none uuid now typ (Any.value p) r).1
        = (GoString.ofText uuid, none)) := by
  cases fault with
  | some e =>
    have hm := marshal_value (enqueued uuid now typ p) p rfl
    unfold enqueued at hm
    unfold Enqueue at hok
    simp [hm, LPush_fault] at hok
  | none =>
    rw [Enqueue_ok] at hok ⊢
    simp only [Prod.mk.injEq, and_true] at hok
    subst hok
    have hl := Dequeue_last q
      (Function.update r q.name (wireOf (enqueued uuid now typ p) :: r q.name))
      [] (wireOf (enqueued uuid now typ p)) (by simp [hlive])
    have hdel : ∀ p1 : JSON, decodeAny p = Except.ok p1 →
        (Dequeue q none
          (Function.update r q.name (wireOf (enqueued uuid now typ p) :: r q.name))).1
          = (some { ID := GoString.ofText uuid, Typ := GoString.ofText typ.toValidUTF8,
                    Payload := Any.value p1, CreatedAt := GoString.ofText now,
                    Attempts := 0 }, none) := by
      intro p1 hdec
      rw [hl, delivery_enqueued uuid now typ p p1 hdec]
    refine ⟨rfl, ⟨?_, hdel, ?_, ?_⟩, ?_⟩
    · simp [hlive, wireOf, marshal, enqueued, toValidUTF8_ofText]
    · intro ht hg
      have h := hdel p (decodeAny_of_generic p hg)
      unfold isText at ht
      rw [ht] at h
      exact h
    · intro e he
      rw [hl]
      unfold delivery
      rw [unmarshal_wireOf_error (enqueued uuid now typ p) p e rfl he]
    · intro p2
      rw [Enqueue_ok]

/-- C4 (amended), on the empty store, for the empty type string. -/
theorem enqueue_dequeue_round_trip_witness :
    (emptyStore (NewQueue "orders" 3).name = []
      ∧ (Enqueue (NewQueue "orders" 3) none "X" "2024-01-01T00:00:00Z" []
          (Any.value (JSON.str "hello")) emptyStore).1 = (GoString.ofText "X", none))
    ∧ (Dequeue (NewQueue "orders" 3) none
        (Enqueue (NewQueue "orders" 3) none "X" "2024-01-01T00:00:00Z" []
          (Any.value (JSON.str "hello")) emptyStore).2).1
      = (some { ID := GoString.ofText "X", Typ := GoString.ofText (GoString.toValidUTF8 []),
                Payload := Any.value (JSON.str "hello"),
                CreatedAt := GoString.ofText "2024-01-01T00:00:00Z", Attempts := 0 }, none) :=
  ⟨⟨rfl, rfl⟩,
   (enqueue_dequeue_round_trip (NewQueue "orders" 3) none "X" "2024-01-01T00:00:00Z" []
      (JSON.str "hello") emptyStore (GoString.ofText "X") rfl rfl).2.1.2.1
      (JSON.str "hello") rfl⟩

/-- C4 fails as stated: Enqueue of the payload 9007199254740993 with a type
that is one byte 0xFF succeeds, and the next Dequeue returns the payload
9007199254740992, the float64 the number is decoded to, and the type U+FFFD. -/
theorem round_trip_counterexample :
    (Enqueue (NewQueue "orders" 3) none "X" "2024-01-01T00:00:00Z" [Rune.invalid 255]
        (Any.value (JSON.num 9007199254740993)) emptyStore).1 = (GoString.ofText "X", none)
    ∧ (Dequeue (NewQueue "orders" 3) none
        (Enqueue (NewQueue "orders" 3) none "X" "2024-01-01T00:00:00Z" [Rune.invalid 255]
          (Any.value (JSON.num 9007199254740993)) emptyStore).2).1
      = (some { ID := GoString.ofText "X", Typ := [Rune.char (Char.ofNat 0xFFFD)],
                Payload := Any.value (JSON.num 9007199254740992),
                CreatedAt := GoString.ofText "2024-01-01T00:00:00Z", Attempts := 0 }, none) :=
  ⟨rfl, rfl⟩

/-- C6 (amended): Fail, called directly on any message with attempts = a where
a is an int below the largest int, leaves the caller's message with attempts
exactly a + 1 and leaves the live list unchanged, whatever the outcome; when
the payload is one `json.Marshal` accepts and the store is reachable it pushes
one record onto the dead-letter list, the encoding of the message with
attempts = a + 1, which decodes to a message with attempts = a + 1 (to the
message itself when it is one that Dequeue returned), and returns no error. -/
theorem fail_increments_and_dead_letters (name : String) (N : Int) (fault : Option String)
    (m : Message) (r : Redis) (a : Int) (ha : m.Attempts = a)
    (h1 : minInt ≤ a) (h2 : a < maxInt) :
    (Fail (NewQueue name N) fault m r).1.1 = { m with Attempts := a + 1 }
    ∧ (Fail (NewQueue name N) fault m r).2 (NewQueue name N).name = r (NewQueue name N).name
    ∧ (∀ p : JSON, m.Payload = Any.value p → fault = none →
        (Fail (NewQueue name N) fault m r).1.2 = none
        ∧ (Fail (NewQueue name N) fault m r).2 (NewQueue name N).deadName
            = wireOf { m with Attempts := a + 1 } :: r (NewQueue name N).deadName
        ∧ (∀ p1 : JSON, decodeAny p = Except.ok p1 →
            unmarshal (wireOf { m with Attempts := a + 1 }) Message.zero
              = Except.ok (received { m with Attempts := a + 1 } p1))
        ∧ (settled m →
            unmarshal (wireOf { m with Attempts := a + 1 }) Message.zero
              = Except.ok { m with Attempts := a + 1 })) := by
  have hne : name ++ ":dead" ≠ name := deadName_ne_name name 0
  have hb : bump m = { m with Attempts := a + 1 } := by
    unfold bump
    rw [ha, wrapInt_of_range _ (by omega) (by omega)]
  have hqn : (NewQueue name N).name = name := rfl
  have hqd : (NewQueue name N).deadName = name ++ ":dead" := rfl
  rcases payload_cases m with ⟨p, hpl⟩ | ⟨kind, hpl⟩
  case inr =>
    rw [Fail_unsupported _ fault m kind r hpl, hb]
    refine ⟨rfl, rfl, ?_⟩
    intro p hp
    rw [hpl] at hp
    cases hp
  case inl =>
    cases fault with
    | some e =>
      rw [Fail_fault _ e m p r hpl, hb]
      refine ⟨rfl, rfl, ?_⟩
      intro p2 _ hf
      cases hf
    | none =>
      rw [Fail_ok _ m p r hpl, hb, hqn, hqd]
      refine ⟨rfl, by simp [Function.update_noteq hne.symm], ?_⟩
      intro p2 hp2 _
      have hpp : p2 = p := by
        rw [hpl] at hp2
        cases hp2
        rfl
      subst hpp
      refine ⟨rfl, by simp, ?_, ?_⟩
      · intro p1 hdec
        exact unmarshal_wireOf_value _ p2 p1 hpl hdec (by simp only; omega) (by simp only; omega)
      · intro hs
        exact unmarshal_wireOf _ (settled_attempts m _ hs (by omega) (by omega))

/-- C6 (amended), for the message `demoMsg` with attempts = 0 on the empty store. -/
theorem fail_increments_and_dead_letters_witness :
    (demoMsg.Attempts = 0 ∧ minInt ≤ 0 ∧ (0 : Int) < maxInt)
    ∧ (Fail (NewQueue "orders" 3) none demoMsg emptyStore).1.1
        = { demoMsg with Attempts := 0 + 1 }
    ∧ (Fail (NewQueue "orders" 3) none demoMsg emptyStore).2 (NewQueue "orders" 3).name
        = emptyStore (NewQueue "orders" 3).name :=
  ⟨⟨rfl, by decide, by decide⟩,
   (fail_increments_and_dead_letters "orders" 3 none demoMsg emptyStore 0 rfl
      (by decide) (by decide)).1,
   (fail_increments_and_dead_letters "orders" 3 none demoMsg emptyStore 0 rfl
      (by decide) (by decide)).2.1⟩

/-- C6 fails as stated: on a message with attempts = 9223372036854775807, the
largest int, Fail leaves attempts = -9223372036854775808 and pushes a record
with that value; and on a message whose payload `json.Marshal` rejects, Fail
pushes nothing and returns the error. -/
theorem fail_attempts_counterexample :
    ((Fail (NewQueue "orders" 3) none
        { demoMsg with Attempts := 9223372036854775807 } emptyStore).1.1.Attempts
        = -9223372036854775808
      ∧ (DeadLetter (NewQueue "orders" 3) none
          (Fail (NewQueue "orders" 3) none
            { demoMsg with Attempts := 9223372036854775807 } emptyStore).2).1
        = (some { demoMsg with Attempts := -9223372036854775808 }, none))
    ∧ ((Fail (NewQueue "orders" 3) none
        { demoMsg with Payload := Any.unsupported "chan int" } emptyStore).1.2
        = some (Error.json "unsupported type: chan int")
      ∧ (Fail (NewQueue "orders" 3) none
          { demoMsg with Payload := Any.unsupported "chan int" } emptyStore).2
            (NewQueue "orders" 3).deadName = []) :=
  ⟨⟨rfl, rfl⟩, ⟨rfl, rfl⟩⟩

/-- C8: when the list it reads is empty and the store answers `redis.Nil`,
Dequeue, and likewise DeadLetter, returns no message and no error and leaves
the store, so both lists, unchanged; any other failure of the store is returned
as the error, with no message, and the store is unchanged. -/
theorem empty_pop_is_no_message (q : Queue) (r : Redis) :
    (r q.name = [] → Dequeue q none r = ((none, none), r))
    ∧ (r q.deadName = [] → DeadLetter q none r = ((none, none), r))
    ∧ (∀ e : String,
        Dequeue q (some e) r = ((none, some (Error.store e)), r)
        ∧ DeadLetter q (some e) r = ((none, some (Error.store e)), r)) :=
  ⟨Dequeue_empty q r, DeadLetter_empty q r,
   fun e => ⟨Dequeue_fault q e r, DeadLetter_fault q e r⟩⟩

/-- C8, on a store whose live list is empty while the dead-letter list is not,
and on `demoStore`, whose dead-letter list is empty while the live list is not. -/
theorem empty_pop_is_no_message_witness :
    (deadOnlyStore (NewQueue "orders" 3).name = []
      ∧ demoStore (NewQueue "orders" 3).deadName = [])
    ∧ Dequeue (NewQueue "orders" 3) none deadOnlyStore = ((none, none), deadOnlyStore)
    ∧ DeadLetter (NewQueue "orders" 3) none demoStore = ((none, none), demoStore) :=
  ⟨⟨rfl, rfl⟩,
   (empty_pop_is_no_message (NewQueue "orders" 3) deadOnlyStore).1 rfl,
   (empty_pop_is_no_message (NewQueue "orders" 3) demoStore).2.1 rfl⟩

/-- C10: poison message.  If the record at the pop end of the live list does
not decode into a Message, Dequeue returns the decoding error and no message,
and the record is gone from the live list, which is one element shorter, while
the dead-letter list is unchanged; the same holds for DeadLetter on the
dead-letter list, with the live list unchanged. -/
theorem poison_record_is_removed (name : String) (N : Int) (r : Redis) (l : List Bytes)
    (data : Bytes) (e : Error) (hd : unmarshal data Message.zero = Except.error e) :
    (r (NewQueue name N).name = l ++ [data] →
      (Dequeue (NewQueue name N) none r).1 = (none, some e)
      ∧ (Dequeue (NewQueue name N) none r).2 (NewQueue name N).name = l
      ∧ ((Dequeue (NewQueue name N) none r).2 (NewQueue name N).name).length + 1
          = (r (NewQueue name N).name).length
      ∧ (Dequeue (NewQueue name N) none r).2 (NewQueue name N).deadName
          = r (NewQueue name N).deadName)
    ∧ (r (NewQueue name N).deadName = l ++ [data] →
      (DeadLetter (NewQueue name N) none r).1 = (none, some e)
      ∧ (DeadLetter (NewQueue name N) none r).2 (NewQueue name N).deadName = l
      ∧ ((DeadLetter (NewQueue name N) none r).2 (NewQueue name N).deadName).length + 1
          = (r (NewQueue name N).deadName).length
      ∧ (DeadLetter (NewQueue name N) none r).2 (NewQueue name N).name
          = r (NewQueue name N).name) := by
  have hne : (NewQueue name N).deadName ≠ (NewQueue name N).name := deadName_ne_name name N
  constructor
  · intro h
    rw [Dequeue_poison _ r l data e h hd, h]
    exact ⟨rfl, by simp, by simp, by simp [Function.update_noteq hne]⟩
  · intro h
    rw [DeadLetter_poison _ r l data e h hd, h]
    exact ⟨rfl, by simp, by simp, by simp [Function.update_noteq hne.symm]⟩

/-- C10, on `poisonStore`: Dequeue returns the error and the live list keeps
only the good record. -/
theorem poison_record_is_removed_witness :
    (unmarshal (Bytes.garbled "not json") Message.zero
        = Except.error (Error.json "invalid character")
      ∧ poisonStore (NewQueue "orders" 3).name = [wireOf demoMsg] ++ [Bytes.garbled "not json"])
    ∧ (Dequeue (NewQueue "orders" 3) none poisonStore).1
        = (none, some (Error.json "invalid character"))
    ∧ (Dequeue (NewQueue "orders" 3) none poisonStore).2 (NewQueue "orders" 3).name
        = [wireOf demoMsg] :=
  ⟨⟨rfl, rfl⟩,
   ((poison_record_is_removed "orders" 3 poisonStore [wireOf demoMsg]
      (Bytes.garbled "not json") (Error.json "invalid character") rfl).1 rfl).1,
   ((poison_record_is_removed "orders" 3 poisonStore [wireOf demoMsg]
      (Bytes.garbled "not json") (Error.json "invalid character") rfl).1 rfl).2.1⟩

theorem ids_append (l1 l2 : List Bytes) : ids (l1 ++ l2) = ids l1 ++ ids l2 := by
  unfold ids
  exact List.filterMap_append _ _ _

theorem ids_cons_ok (data : Bytes) (l : List Bytes) (m : Message)
    (h : unmarshal data Message.zero = Except.ok m) : ids (data :: l) = m.ID :: ids l := by
  unfold ids
  simp [List.filterMap_cons, h]

theorem ids_cons_error (data : Bytes) (l : List Bytes) (e : Error)
    (h : unmarshal data Message.zero = Except.error e) : ids (data :: l) = ids l := by
  unfold ids
  simp [List.filterMap_cons, h]

theorem ids_nil : ids [] = [] := rfl

/-- A consumer step with a reachable store moves a message or leaves the
lists as they are: across the two lists the ids are the same ones. -/
theorem consumerStep_ids_perm (name : String) (N : Int) (h : Handler) (r : Redis) :
    (ids ((consumerStep (NewQueue name N) h none none r) name)
      ++ ids ((consumerStep (NewQueue name N) h none none r) (name ++ ":dead"))).Perm
      (ids (r name) ++ ids (r (name ++ ":dead"))) := by
  have hne : name ++ ":dead" ≠ name := deadName_ne_name name 0
  have hqn : (NewQueue name N).name = name := rfl
  unfold consumerStep
  rcases List.eq_nil_or_concat (r name) with hnil | ⟨l, data, hl⟩
  · rw [Dequeue_empty _ _ (by rw [hqn]; exact hnil)]
  · rw [List.concat_eq_append] at hl
    cases hu : unmarshal data Message.zero with
    | error e =>
      rw [Dequeue_poison _ r l data e (by rw [hqn]; exact hl) hu]
      simp only [NewQueue, Function.update_same, Function.update_noteq hne]
      rw [hl, ids_append, ids_cons_error data [] e hu, ids_nil, List.append_nil]
    | ok m =>
      rw [Dequeue_snoc _ r l data m (by rw [hqn]; exact hl) hu]
      have hs := unmarshal_settled data m hu
      obtain ⟨p, hp⟩ := settled_payload m hs
      rw [hl, ids_append, ids_cons_ok data [] m hu, ids_nil]
      have hdead : ∀ m0 : Message, settled m0 → m0.ID = m.ID →
          (ids ((Fail (NewQueue name N) none m0 (Function.update r name l)).2 name)
            ++ ids ((Fail (NewQueue name N) none m0 (Function.update r name l)).2
                (name ++ ":dead"))).Perm
            (ids l ++ [m.ID] ++ ids (r (name ++ ":dead"))) := by
        intro m0 hs0 hid0
        obtain ⟨p0, hp0⟩ := settled_payload m0 hs0
        rw [Fail_ok _ m0 p0 _ hp0]
        simp only [NewQueue, Function.update_same, Function.update_noteq hne,
          Function.update_noteq hne.symm]
        rw [ids_cons_ok _ _ _ (unmarshal_wireOf_bump m0 hs0)]
        have : (bump m0).ID = m.ID := hid0
        rw [this]
        simp
      cases h with
      | fail => exact hdead m hs rfl
      | retry =>
        simp only
        by_cases hge : (NewQueue name N).maxTries ≤ wrapInt (m.Attempts + 1)
        · rw [Retry_dead _ none m _ hge]
          exact hdead (bump m) (settled_bump m hs) rfl
        · rw [Retry_live _ m p _ hp (not_le.mp hge)]
          simp only [NewQueue, Function.update_same, Function.update_noteq hne]
          rw [ids_cons_ok _ _ _ (unmarshal_wireOf_bump m hs)]
          have : (bump m).ID = m.ID := rfl
          rw [this]
          simp only [List.append_assoc, List.singleton_append]
          exact List.perm_middle.symm

/-- A consumer step keeps the ids across the two lists distinct. -/
theorem consumerStep_idsDistinct (name : String) (N : Int) (s : Step) (r : Redis)
    (h : idsDistinct (NewQueue name N) r) :
    idsDistinct (NewQueue name N) (consumerStep (NewQueue name N) s.handler s.popFault s.pushFault r) := by
  have hne : name ++ ":dead" ≠ name := deadName_ne_name name 0
  have hqn : (NewQueue name N).name = name := rfl
  have hqd : (NewQueue name N).deadName = name ++ ":dead" := rfl
  unfold idsDistinct at h ⊢
  rw [hqn, hqd] at h ⊢
  obtain ⟨handler, popFault, pushFault⟩ := s
  simp only
  cases popFault with
  | some e => unfold consumerStep; rw [Dequeue_fault]; exact h
  | none =>
    cases pushFault with
    | none => exact (consumerStep_ids_perm name N handler r).nodup_iff.mpr h
    | some e =>
      unfold consumerStep
      rcases List.eq_nil_or_concat (r name) with hnil | ⟨l, data, hl⟩
      · rw [Dequeue_empty _ _ (by rw [hqn]; exact hnil)]; exact h
      · rw [hl, List.concat_eq_append] at h
        rw [List.concat_eq_append] at hl
        have hbase : (ids l ++ ids (r (name ++ ":dead"))).Nodup := by
          rw [ids_append] at h
          exact (List.Sublist.append (List.sublist_append_left _ _)
            (List.Sublist.refl _)).nodup h
        cases hu : unmarshal data Message.zero with
        | error e1 =>
          rw [Dequeue_poison _ r l data e1 (by rw [hqn]; exact hl) hu]
          simpa [NewQueue, Function.update_noteq hne] using hbase
        | ok m =>
          rw [Dequeue_snoc _ r l data m (by rw [hqn]; exact hl) hu]
          have hs := unmarshal_settled data m hu
          obtain ⟨p, hp⟩ := settled_payload m hs
          cases handler with
          | fail =>
            simp only
            rw [Fail_fault _ e m p _ hp]
            simpa [NewQueue, Function.update_noteq hne] using hbase
          | retry =>
            simp only
            by_cases hge : (NewQueue name N).maxTries ≤ wrapInt (m.Attempts + 1)
            · rw [Retry_dead _ (some e) m _ hge, Fail_fault _ e (bump m) p _ hp]
              simpa [NewQueue, Function.update_noteq hne] using hbase
            · rw [Retry_live_fault _ e m p _ hp (not_le.mp hge)]
              simpa [NewQueue, Function.update_noteq hne] using hbase

theorem runSteps_idsDistinct (name : String) (N : Int) (steps : List Step) (r : Redis)
    (h : idsDistinct (NewQueue name N) r) :
    idsDistinct (NewQueue name N) (runSteps (NewQueue name N) steps r) := by
  induction steps generalizing r with
  | nil => exact h
  | cons s ss ih =>
    unfold runSteps
    exact ih _ (consumerStep_idsDistinct name N s r h)

theorem sameIdentity_bump (m : Message) : sameIdentity (bump m) m := ⟨rfl, rfl, rfl, rfl⟩

theorem Fail_success (q : Queue) (fault : Option String) (m : Message) (r : Redis)
    (h : (Fail q fault m r).1.2 = none) :
    (∃ p, m.Payload = Any.value p) ∧ fault = none := by
  rcases payload_cases m with ⟨p, hp⟩ | ⟨kind, hp⟩
  · cases fault with
    | some e => rw [Fail_fault q e m p r hp] at h; simp at h
    | none => exact ⟨⟨p, hp⟩, rfl⟩
  · rw [Fail_unsupported q fault m kind r hp] at h; simp at h

theorem Retry_success (q : Queue) (fault : Option String) (m : Message) (r : Redis)
    (h : (Retry q fault m r).1.2 = none) :
    (∃ p, m.Payload = Any.value p) ∧ fault = none := by
  by_cases hge : q.maxTries ≤ wrapInt (m.Attempts + 1)
  · rw [Retry_dead q fault m r hge] at h
    exact Fail_success q fault (bump m) r h
  · have hlt : wrapInt (m.Attempts + 1) < q.maxTries := not_le.mp hge
    rcases payload_cases m with ⟨p, hp⟩ | ⟨kind, hp⟩
    · cases fault with
      | some e => rw [Retry_live_fault q e m p r hp hlt] at h; simp at h
      | none => exact ⟨⟨p, hp⟩, rfl⟩
    · rw [Retry_live_unsupported q fault m kind r hp hlt] at h; simp at h

theorem Fail_caller (q : Queue) (fault : Option String) (m : Message) (r : Redis) :
    (Fail q fault m r).1.1 = bump m := by
  rcases payload_cases m with ⟨p, hp⟩ | ⟨kind, hp⟩
  · cases fault with
    | some e => rw [Fail_fault q e m p r hp]
    | none => rw [Fail_ok q m p r hp]
  · rw [Fail_unsupported q fault m kind r hp]

theorem Retry_caller (q : Queue) (fault : Option String) (m : Message) (r : Redis) :
    (Retry q fault m r).1.1
      = if q.maxTries ≤ (bump m).Attempts then bump (bump m) else bump m := by
  by_cases hge : q.maxTries ≤ wrapInt (m.Attempts + 1)
  · rw [Retry_dead q fault m r hge, Fail_caller, if_pos (by exact hge)]
  · have hlt : wrapInt (m.Attempts + 1) < q.maxTries := not_le.mp hge
    rw [if_neg (by exact hge)]
    rcases payload_cases m with ⟨p, hp⟩ | ⟨kind, hp⟩
    · cases fault with
      | some e => rw [Retry_live_fault q e m p r hp hlt]
      | none => rw [Retry_live q m p r hp hlt]
    · rw [Retry_live_unsupported q fault m kind r hp hlt]

theorem Fail_pushedFor (q : Queue) (fault : Option String) (m : Message) (r : Redis)
    (k : String) : pushedFor (Fail q fault m r).1.1 (r k) ((Fail q fault m r).2 k) := by
  rw [Fail_caller]
  rcases payload_cases m with ⟨p, hp⟩ | ⟨kind, hp⟩
  · cases fault with
    | some e => rw [Fail_fault q e m p r hp]; exact Or.inl rfl
    | none =>
      rw [Fail_ok q m p r hp]
      by_cases hk : k = q.deadName
      · subst hk
        exact Or.inr ⟨by simp, marshal_value (bump m) p hp⟩
      · exact Or.inl (by simp [Function.update_noteq hk])
  · rw [Fail_unsupported q fault m kind r hp]; exact Or.inl rfl

theorem Retry_pushedFor (q : Queue) (fault : Option String) (m : Message) (r : Redis)
    (k : String) : pushedFor (Retry q fault m r).1.1 (r k) ((Retry q fault m r).2 k) := by
  by_cases hge : q.maxTries ≤ wrapInt (m.Attempts + 1)
  · rw [Retry_dead q fault m r hge]
    exact Fail_pushedFor q fault (bump m) r k
  · have hlt : wrapInt (m.Attempts + 1) < q.maxTries := not_le.mp hge
    rcases payload_cases m with ⟨p, hp⟩ | ⟨kind, hp⟩
    · cases fault with
      | some e => rw [Retry_live_fault q e m p r hp hlt]; exact Or.inl rfl
      | none =>
        rw [Retry_live q m p r hp hlt]
        by_cases hk : k = q.name
        · subst hk
          exact Or.inr ⟨by simp, marshal_value (bump m) p hp⟩
        · exact Or.inl (by simp [Function.update_noteq hk])
    · rw [Retry_live_unsupported q fault m kind r hp hlt]; exact Or.inl rfl

/-- C7: a message is never in both lists.  Retry of a message whose payload
`json.Marshal` accepts, on a reachable store, returns no error and adds one
record, the encoding of the message, at the head of exactly one of the two
lists, the live list when the incremented attempts is below max_tries and the
dead-letter list otherwise (there with attempts incremented once more by Fail),
and leaves the other list unchanged; a Retry that returns no error is such a
call.  A Dequeue-then-Retry or Dequeue-then-Fail step on a reachable store
leaves the same ids across the two lists, and from a store where each message
id occurs at most once across the live and dead-letter lists, any sequence of
such steps, whatever failures the store calls meet, leads to a store where that
is still so. -/
theorem message_in_one_list (name : String) (N : Int) (r : Redis) :
    (∀ (m : Message) (p : JSON), m.Payload = Any.value p →
      (Retry (NewQueue name N) none m r).1.2 = none
      ∧ ((bump m).Attempts < N →
          (Retry (NewQueue name N) none m r).2 (NewQueue name N).name
              = wireOf (bump m) :: r (NewQueue name N).name
          ∧ (Retry (NewQueue name N) none m r).2 (NewQueue name N).deadName
              = r (NewQueue name N).deadName)
      ∧ (N ≤ (bump m).Attempts →
          (Retry (NewQueue name N) none m r).2 (NewQueue name N).deadName
              = wireOf (bump (bump m)) :: r (NewQueue name N).deadName
          ∧ (Retry (NewQueue name N) none m r).2 (NewQueue name N).name
              = r (NewQueue name N).name)
      ∧ marshal (bump m) = Except.ok (wireOf (bump m))
      ∧ marshal (bump (bump m)) = Except.ok (wireOf (bump (bump m)))
      ∧ (settled m →
          ids [wireOf (bump m)] = [m.ID] ∧ ids [wireOf (bump (bump m))] = [m.ID]))
    ∧ (∀ (fault : Option String) (m : Message),
        (Retry (NewQueue name N) fault m r).1.2 = none →
          (∃ p, m.Payload = Any.value p) ∧ fault = none)
    ∧ (∀ h : Handler,
        (ids ((consumerStep (NewQueue name N) h none none r) (NewQueue name N).name)
          ++ ids ((consumerStep (NewQueue name N) h none none r)
              (NewQueue name N).deadName)).Perm
          (ids (r (NewQueue name N).name) ++ ids (r (NewQueue name N).deadName)))
    ∧ (idsDistinct (NewQueue name N) r →
        ∀ steps : List Step, idsDistinct (NewQueue name N) (runSteps (NewQueue name N) steps r)) := by
  have hne : name ++ ":dead" ≠ name := deadName_ne_name name 0
  refine ⟨?_, fun fault m => Retry_success _ fault m r,
    fun h => consumerStep_ids_perm name N h r,
    fun h steps => runSteps_idsDistinct name N steps r h⟩
  intro m p hp
  refine ⟨?_, ?_, ?_, marshal_value (bump m) p hp, marshal_value (bump (bump m)) p hp, ?_⟩
  · by_cases hge : (NewQueue name N).maxTries ≤ wrapInt (m.Attempts + 1)
    · rw [Retry_dead (NewQueue name N) none m r hge, Fail_ok (NewQueue name N) (bump m) p r hp]
    · rw [Retry_live (NewQueue name N) m p r hp (not_le.mp hge)]
  · intro hlt
    rw [Retry_live (NewQueue name N) m p r hp hlt]
    exact ⟨by simp [NewQueue], by simp [NewQueue, Function.update_noteq hne]⟩
  · intro hge
    rw [Retry_dead (NewQueue name N) none m r hge, Fail_ok (NewQueue name N) (bump m) p r hp]
    exact ⟨by simp [NewQueue], by simp [NewQueue, Function.update_noteq hne.symm]⟩
  · intro hs
    rw [ids_cons_ok _ _ _ (unmarshal_wireOf_bump m hs),
      ids_cons_ok _ _ _ (unmarshal_wireOf_bump (bump m) (settled_bump m hs))]
    exact ⟨rfl, rfl⟩

/-- C7, with max_tries = 1 on the empty store: Retry of `demoMsg` returns no
error, puts its record, with attempts = 2, on the dead-letter list and leaves
the live list empty; and on `demoStore`, after a step that dead-letters the
message, the dead-letter list holds its id and the live list holds none. -/
theorem message_in_one_list_witness :
    (demoMsg.Payload = Any.value (JSON.obj [("id", JSON.num 42)])
      ∧ (1 : Int) ≤ (bump demoMsg).Attempts)
    ∧ (Retry (NewQueue "orders" 1) none demoMsg emptyStore).1.2 = none
    ∧ (Retry (NewQueue "orders" 1) none demoMsg emptyStore).2 (NewQueue "orders" 1).deadName
        = wireOf (bump (bump demoMsg)) :: emptyStore (NewQueue "orders" 1).deadName
    ∧ (Retry (NewQueue "orders" 1) none demoMsg emptyStore).2 (NewQueue "orders" 1).name
        = emptyStore (NewQueue "orders" 1).name
    ∧ (ids ((consumerStep (NewQueue "orders" 1) Handler.retry none none demoStore)
            (NewQueue "orders" 1).name)
          ++ ids ((consumerStep (NewQueue "orders" 1) Handler.retry none none demoStore)
              (NewQueue "orders" 1).deadName)).Perm
          (ids (demoStore (NewQueue "orders" 1).name)
            ++ ids (demoStore (NewQueue "orders" 1).deadName)) :=
  ⟨⟨rfl, by decide⟩,
   ((message_in_one_list "orders" 1 emptyStore).1 demoMsg _ rfl).1,
   (((message_in_one_list "orders" 1 emptyStore).1 demoMsg _ rfl).2.2.1 (by decide)).1,
   (((message_in_one_list "orders" 1 emptyStore).1 demoMsg _ rfl).2.2.1 (by decide)).2,
   (message_in_one_list "orders" 1 demoStore).2.2.1 Handler.retry⟩

/-- C9: the id of a message is immutable.  Retry and Fail leave the caller's
message with its id, type, payload and created_at; every list of the store is
as before or has one more record, the encoding of the caller's message, and on
success there is such a record on the dead-letter list (Fail) or on the live or
dead-letter list (Retry); for a message that Dequeue or DeadLetter returned the
record decodes to the caller's message, so to the id, type, payload and
created_at of the message passed in; and Dequeue and DeadLetter return a
stored message, so its id, as it was encoded. -/
theorem identity_is_preserved (q : Queue) (fault : Option String) (m : Message) (r : Redis) :
    sameIdentity (Fail q fault m r).1.1 m
    ∧ sameIdentity (Retry q fault m r).1.1 m
    ∧ (∀ k : String, pushedFor (Fail q fault m r).1.1 (r k) ((Fail q fault m r).2 k))
    ∧ (∀ k : String, pushedFor (Retry q fault m r).1.1 (r k) ((Retry q fault m r).2 k))
    ∧ ((Fail q fault m r).1.2 = none →
        (Fail q fault m r).2 q.deadName = wireOf (Fail q fault m r).1.1 :: r q.deadName)
    ∧ ((Retry q fault m r).1.2 = none →
        (Retry q fault m r).2 q.name = wireOf (Retry q fault m r).1.1 :: r q.name
        ∨ (Retry q fault m r).2 q.deadName = wireOf (Retry q fault m r).1.1 :: r q.deadName)
    ∧ (settled m →
        unmarshal (wireOf (Fail q fault m r).1.1) Message.zero
            = Except.ok (Fail q fault m r).1.1
        ∧ unmarshal (wireOf (Retry q fault m r).1.1) Message.zero
            = Except.ok (Retry q fault m r).1.1)
    ∧ (∀ (l : List Bytes) (m0 : Message), settled m0 →
        (r q.name = l ++ [wireOf m0] → (Dequeue q none r).1 = (some m0, none))
        ∧ (r q.deadName = l ++ [wireOf m0] → (DeadLetter q none r).1 = (some m0, none))) := by
  refine ⟨?_, ?_, Fail_pushedFor q fault m r, Retry_pushedFor q fault m r, ?_, ?_, ?_, ?_⟩
  · rw [Fail_caller]; exact sameIdentity_bump m
  · rw [Retry_caller]
    split_ifs
    · exact ⟨rfl, rfl, rfl, rfl⟩
    · exact sameIdentity_bump m
  · intro hok
    obtain ⟨⟨p, hp⟩, hf⟩ := Fail_success q fault m r hok
    subst hf
    rw [Fail_ok q m p r hp]
    simp
  · intro hok
    obtain ⟨⟨p, hp⟩, hf⟩ := Retry_success q fault m r hok
    subst hf
    by_cases hge : q.maxTries ≤ wrapInt (m.Attempts + 1)
    · rw [Retry_dead q none m r hge, Fail_ok q (bump m) p r hp]
      exact Or.inr (by simp)
    · rw [Retry_live q m p r hp (not_le.mp hge)]
      exact Or.inl (by simp)
  · intro hs
    rw [Fail_caller, Retry_caller]
    refine ⟨unmarshal_wireOf_bump m hs, ?_⟩
    split_ifs
    · exact unmarshal_wireOf_bump (bump m) (settled_bump m hs)
    · exact unmarshal_wireOf_bump m hs
  · intro l m0 hs
    constructor
    · intro h
      rw [Dequeue_snoc q r l (wireOf m0) m0 h (unmarshal_wireOf m0 hs)]
    · intro h
      rw [DeadLetter_snoc q r l (wireOf m0) m0 h (unmarshal_wireOf m0 hs)]

/-- C9, for `demoMsg`: after a successful Fail the caller's message has the id
it had, and Dequeue on `demoStore` returns the stored message. -/
theorem identity_is_preserved_witness :
    (unmarshal (wireOf demoMsg) Message.zero = Except.ok demoMsg
      ∧ demoStore (NewQueue "orders" 3).name = [] ++ [wireOf demoMsg])
    ∧ sameIdentity (Fail (NewQueue "orders" 3) none demoMsg demoStore).1.1 demoMsg
    ∧ (Dequeue (NewQueue "orders" 3) none demoStore).1 = (some demoMsg, none) :=
  ⟨⟨rfl, rfl⟩,
   (identity_is_preserved (NewQueue "orders" 3) none demoMsg demoStore).1,
   ((identity_is_preserved (NewQueue "orders" 3) none demoMsg demoStore).2.2.2.2.2.2.2
      [] demoMsg (unmarshal_settled (wireOf demoMsg) demoMsg rfl)).1 rfl⟩

end Qued
